import Mathlib

/-!
# gorm-common-repository: a shallow embedding and its verified properties

The Go sources embedded here are `errors.go` (the duplicate-key error
classifier), `lib.go` (`IsEmpty`), `query_params.go` (pagination, sorting and
filter parameters) and `repository.go` (the generic repository).

Conventions of the embedding.

* A Go `string` is a `List Char` (`Str`).
* A Go `error` is `Option GoError`: `none` is the nil error.
* A Go function that can panic returns an `Option`: `none` is the panic.
* A Go `int` is a 64-bit two's complement integer, embedded as an `Int`
  together with an explicit `wrapInt` wherever the source does arithmetic.
* A Go `map` is the list of its entries in the order in which a `range` loop
  visits them; the keys of a map are pairwise distinct and the visiting order
  is not fixed by the language.
* The ORM (`gorm.DB`) is an external collaborator: query construction is
  recorded as the sequence of clauses that the source applies, and query
  execution is a parameter of the repository.
-/

namespace GormRepo

/-- A Go string, as the list of its characters. -/
abbrev Str := List Char

/-- Width of the Go type `int` on the 64-bit platforms this embedding fixes. -/
def intSize : Nat := 64

/-- Two's complement wrap-around of an integer into the range of Go's `int`. -/
def wrapInt (x : Int) : Int := (x + 2 ^ (intSize - 1)) % 2 ^ intSize - 2 ^ (intSize - 1)

/-- Largest value of Go's `int`. -/
def maxInt : Int := 2 ^ (intSize - 1) - 1

/-- Smallest value of Go's `int`. -/
def minInt : Int := -(2 ^ (intSize - 1))

/-! ## The parts of Go's standard library used by the sources -/

namespace strings

/-- Go `strings.Split(s, sep)` for a one-character separator: the substrings of
`s` between the occurrences of `sep`; a string without `sep` gives `[s]`. -/
def Split (s : Str) (sep : Char) : List Str :=
  match s with
  | [] => [[]]
  | c :: cs =>
    if c = sep then [] :: Split cs sep
    else
      match Split cs sep with
      | [] => [[c]]
      | p :: ps => (c :: p) :: ps

/-- Go `strings.Contains(s, sep)` for a one-character `sep`. -/
def Contains (s : Str) (sep : Char) : Bool := s.contains sep

end strings

namespace strconv

/-- The two error kinds of Go's `strconv.NumError`. -/
inductive NumError where
  | ErrSyntax
  | ErrRange
  deriving DecidableEq, Repr

/-- Largest `uint64`. -/
def maxUint64 : Nat := 2 ^ 64 - 1

/-- The digit loop of Go `strconv.ParseUint(s, 10, 64)`, started with the
accumulator `n`: a character that is not a decimal digit is a syntax error with
value 0; an accumulator that would leave `uint64` is a range error with value
`maxUint64`, reported at once, before the remaining characters are looked at. -/
def parseUintLoop (n : Nat) : Str → Nat × Option NumError
  | [] => (n, none)
  | c :: cs =>
    if c.isDigit then
      if n ≥ maxUint64 / 10 + 1 then (maxUint64, some NumError.ErrRange)
      else
        let n10 := n * 10
        let n1 := (n10 + (c.toNat - 48)) % 2 ^ 64
        if n1 < n10 ∨ n1 > maxUint64 then (maxUint64, some NumError.ErrRange)
        else parseUintLoop n1 cs
    else (0, some NumError.ErrSyntax)

/-- Go `strconv.ParseUint(s, 10, 64)`. -/
def ParseUint (s : Str) : Nat × Option NumError :=
  if s.isEmpty then (0, some NumError.ErrSyntax) else parseUintLoop 0 s

/-- Go `strconv.ParseInt(s, 10, 0)`: an optional sign, then `ParseUint`; a
syntax error gives 0, a magnitude outside `int` gives the nearest bound. -/
def ParseInt (s : Str) : Int × Option NumError :=
  match s with
  | [] => (0, some NumError.ErrSyntax)
  | c :: rest =>
    let neg : Bool := c == '-'
    let digits : Str := if c == '+' || c == '-' then rest else c :: rest
    match ParseUint digits with
    | (_, some NumError.ErrSyntax) => (0, some NumError.ErrSyntax)
    | (un, _) =>
      let cutoff : Nat := 2 ^ (intSize - 1)
      if !neg && decide (un ≥ cutoff) then ((cutoff : Int) - 1, some NumError.ErrRange)
      else if neg && decide (un > cutoff) then (-(cutoff : Int), some NumError.ErrRange)
      else (if neg then -(un : Int) else (un : Int), none)

/-- Go `strconv.Atoi(s)`: the value and the error of `ParseInt(s, 10, 0)`.
(The fast path Go takes for short strings computes the same result.) -/
def Atoi (s : Str) : Int × Option NumError := ParseInt s

end strconv

/-! ## Errors -/

/-- A non-nil Go `error` value: one of the two sentinel errors exported by the
ORM, or any other error, identified by its message. -/
inductive GoError where
  | recordNotFound
  | duplicatedKey
  | other (message : Str)
  deriving DecidableEq, Repr

namespace gorm

/-- The ORM's sentinel `gorm.ErrRecordNotFound`. -/
def ErrRecordNotFound : GoError := GoError.recordNotFound

/-- The ORM's sentinel `gorm.ErrDuplicatedKey`. -/
def ErrDuplicatedKey : GoError := GoError.duplicatedKey

end gorm

/-- The method `Error()` of an error value; the two sentinels carry the
messages the ORM gives them. -/
def GoError.Error : GoError → Str
  | GoError.recordNotFound => "record not found".toList
  | GoError.duplicatedKey => "duplicated key not allowed".toList
  | GoError.other message => message

/-! ## errors.go -/

/-- The class `\w` of Go regular expressions: `[0-9A-Za-z_]`. -/
def isWordChar (c : Char) : Bool := c.isAlphanum || c == '_'

/-- The class `[\w\d-]` of the capture group `entry`. -/
def isEntryChar (c : Char) : Bool := isWordChar c || c.isDigit || c == '-'

/-- The class `[\w.]` of the capture group `key`. -/
def isKeyChar (c : Char) : Bool := isWordChar c || c == '.'

/-- The single quote character. -/
def quote : Char := Char.ofNat 39

/-- The literal text of `dbKeyDuplicateErrorPattern` before the group `entry`. -/
def patternHead : Str := "Error 1062 (23000): Duplicate entry '".toList

/-- The literal text of `dbKeyDuplicateErrorPattern` between its two groups. -/
def patternMid : Str := "' for key '".toList

/-- The literal text of `dbKeyDuplicateErrorPattern` after the group `key`. -/
def patternTail : Str := "'".toList

namespace regexp

/-- Consume the literal `lit` at the start of `s`; `none` when `s` does not
start with it. -/
def dropLiteral : Str → Str → Option Str
  | [], s => some s
  | _ :: _, [] => none
  | a :: lit, c :: s => if a = c then dropLiteral lit s else none

/-- Match `dbKeyDuplicateErrorPattern` at the very start of `s`, giving the two
captured groups `(entry, key)`.  Both groups are greedy `+` repetitions of a
character class that is followed by a quote, which is in neither class, so a
match can only take the longest run of class characters. -/
def matchHere (s : Str) : Option (Str × Str) :=
  match dropLiteral patternHead s with
  | none => none
  | some r1 =>
    let entry := r1.takeWhile isEntryChar
    if entry.isEmpty then none
    else
      match dropLiteral patternMid (r1.dropWhile isEntryChar) with
      | none => none
      | some r3 =>
        let key := r3.takeWhile isKeyChar
        if key.isEmpty then none
        else
          match dropLiteral patternTail (r3.dropWhile isKeyChar) with
          | none => none
          | some _ => some (entry, key)

/-- The submatches of a match: the matched text, then the groups `entry` and `key`. -/
def submatches (groups : Str × Str) : List Str :=
  [patternHead ++ groups.1 ++ patternMid ++ groups.2 ++ patternTail, groups.1, groups.2]

/-- Go `regex.FindStringSubmatch(s)` for `dbKeyDuplicateErrorPattern`: the
leftmost match as `[whole match, entry, key]`, or nil when there is none. -/
def FindStringSubmatch : Str → List Str
  | [] =>
    match matchHere [] with
    | some groups => submatches groups
    | none => []
  | c :: cs =>
    match matchHere (c :: cs) with
    | some groups => submatches groups
    | none => FindStringSubmatch cs

end regexp

/-- The function `ParseDuplicateEntry` of errors.go.  Calling `Error()` on the nil
error panics; otherwise the result is the flag and the tokens. -/
def ParseDuplicateEntry (err : Option GoError) : Option (Bool × List Str) :=
  match err with
  | none => none
  | some e =>
    let m := regexp.FindStringSubmatch e.Error
    if m.length < 3 then some (false, [])
    else
      match m[2]?, m[1]? with
      | some key, some entry =>
        match (strings.Split key '.')[0]? with
        | none => none
        | some table =>
          some (true, [table] ++ (strings.Split entry '-').filter (fun v => v != []))
      | _, _ => none

/-! ## query_params.go -/

/-- Pagination settings. -/
structure Page where
  Number : Int
  Limit : Int
  deriving DecidableEq, Repr

/-- The function `DefaultPage`. -/
def DefaultPage : Page := { Number := 1, Limit := 10 }

/-- The constant `Ascending` of type `SortDirectionType` (a string type). -/
def Ascending : Str := "ASC".toList

/-- The constant `Descending` of type `SortDirectionType` (a string type). -/
def Descending : Str := "DESC".toList

/-- Sorting settings: the Go struct `Sort`. -/
structure SortSetting where
  By : Str
  Direction : Str
  deriving DecidableEq, Repr

/-- The function `DefaultSort`. -/
def DefaultSort : SortSetting := { By := "created_at".toList, Direction := Descending }

/-- An individual filter parameter; `Action` has the string type `FilterAction`. -/
structure FilterParam where
  Attribute : Str
  Action : Str
  Value : Str
  deriving DecidableEq, Repr

/-- The Go struct `QueryParams`; the field `Sorting` is the Go field `Sort`. -/
structure QueryParams where
  Page : Page
  Sorting : SortSetting
  FilterParams : List FilterParam
  deriving DecidableEq, Repr

namespace gorm

/-- An argument bound to a `?` of a predicate: a string or a list of strings. -/
inductive Arg where
  | str (value : Str)
  | strs (values : List Str)
  deriving DecidableEq, Repr

/-- One clause applied to a query through the ORM's chaining methods. -/
inductive Clause where
  | Where (query : Str) (args : List Arg)
  | Order (value : Str)
  | Offset (offset : Int)
  | Limit (limit : Int)
  deriving DecidableEq, Repr

/-- A query under construction (`*gorm.DB`): the table it reads and the
clauses applied so far, oldest first. -/
structure DB where
  table : Str
  clauses : List Clause
  deriving DecidableEq, Repr

/-- The chaining method `Offset`. -/
def DB.Offset (db : DB) (offset : Int) : DB :=
  { db with clauses := db.clauses ++ [Clause.Offset offset] }

/-- The chaining method `Limit`. -/
def DB.Limit (db : DB) (limit : Int) : DB :=
  { db with clauses := db.clauses ++ [Clause.Limit limit] }

/-- The chaining method `Where` with a predicate text and its arguments; each
call adds one predicate, and the ORM combines the predicates of a query with
AND. -/
def DB.Where (db : DB) (query : Str) (args : List Arg) : DB :=
  { db with clauses := db.clauses ++ [Clause.Where query args] }

/-- The chaining method `Order`. -/
def DB.Order (db : DB) (value : Str) : DB :=
  { db with clauses := db.clauses ++ [Clause.Order value] }

/-- The method `Scopes` on a query started with `Table`: the ORM records the
scope on the statement of that same query and runs the recorded scopes, in the
order of their registration, when the query executes.  Nothing else touches the
clauses in between, so the scope is applied here, at registration. -/
def DB.Scopes (db : DB) (scope : DB → DB) : DB := scope db

/-- The call `Table(name)` on the client: a fresh query on the table. -/
def Table (name : Str) : DB := { table := name, clauses := [] }

/-- The outcome of a write: `Error` and `RowsAffected` of the returned `*gorm.DB`. -/
structure Result where
  Error : Option GoError
  RowsAffected : Int
  deriving DecidableEq, Repr

end gorm

/-- The Go type `GormQueryBuilder`. -/
abbrev GormQueryBuilder := gorm.DB → gorm.DB

/-- The method `Paginate`: the offset is computed in Go's `int` arithmetic. -/
def QueryParams.Paginate (queryParams : QueryParams) : GormQueryBuilder :=
  fun dbQuery =>
    let offset := wrapInt (wrapInt (queryParams.Page.Number - 1) * queryParams.Page.Limit)
    (dbQuery.Offset offset).Limit queryParams.Page.Limit

/-- The method `SortByDirection`: `fmt.Sprintf("%s %s", By, Direction)` is the
two strings with one space between them. -/
def QueryParams.SortByDirection (queryParams : QueryParams) : GormQueryBuilder :=
  fun dbQuery =>
    dbQuery.Order (queryParams.Sorting.By ++ " ".toList ++ queryParams.Sorting.Direction)

/-- The function `IsEmpty` of lib.go on a string: a string is never the nil
interface, and it is deeply equal to the zero value of its type exactly when it
is the empty string. -/
def IsEmpty (x : Str) : Bool := x.isEmpty

/-- The filter action `equals`. -/
def Equals : Str := "equals".toList

/-- The filter action `like`. -/
def Like : Str := "like".toList

/-- The filter action `in`. -/
def In : Str := "in".toList

/-- The filter action `greater-than`. -/
def GreaterThan : Str := "greater-than".toList

/-- The filter action `greater-than-equal`. -/
def GreaterThanEqual : Str := "greater-than-equal".toList

/-- The filter action `less-than`. -/
def LessThan : Str := "less-than".toList

/-- The filter action `less-than-equal`. -/
def LessThanEqual : Str := "less-than-equal".toList

/-- One iteration of the loop of `FilterByParams`, for `filterParam`: the
`switch` on the action has no default case. -/
def filterByParamsStep (tableName : Str) (dbQuery : gorm.DB) (filterParam : FilterParam) :
    gorm.DB :=
  let attr : Str :=
    if !IsEmpty tableName then tableName ++ ".".toList ++ filterParam.Attribute
    else filterParam.Attribute
  let action := filterParam.Action
  let value := filterParam.Value
  if action = Equals then
    dbQuery.Where (attr ++ " = ?".toList) [gorm.Arg.str value]
  else if action = Like then
    dbQuery.Where (attr ++ " LIKE ?".toList) [gorm.Arg.str ("%".toList ++ value ++ "%".toList)]
  else if action = In then
    dbQuery.Where (attr ++ " IN (?)".toList) [gorm.Arg.strs (strings.Split value ',')]
  else if action = GreaterThan then
    dbQuery.Where (attr ++ " > ?".toList) [gorm.Arg.str value]
  else if action = GreaterThanEqual then
    dbQuery.Where (attr ++ " >= ?".toList) [gorm.Arg.str value]
  else if action = LessThan then
    dbQuery.Where (attr ++ " < ?".toList) [gorm.Arg.str value]
  else if action = LessThanEqual then
    dbQuery.Where (attr ++ " <= ?".toList) [gorm.Arg.str value]
  else dbQuery

/-- The method `FilterByParams`. -/
def QueryParams.FilterByParams (queryParams : QueryParams) (tableName : Str) :
    GormQueryBuilder :=
  fun dbQuery => queryParams.FilterParams.foldl (filterByParamsStep tableName) dbQuery

/-- The query parameter key `limit`. -/
def PageLimit : Str := "limit".toList

/-- The query parameter key `page`. -/
def PageNumber : Str := "page".toList

/-- The query parameter key `sort_by`. -/
def SortBy : Str := "sort_by".toList

/-- The query parameter key `sort_direction`. -/
def SortDirection : Str := "sort_direction".toList

/-- The local variables of `SetQueryParams` that its loop updates. -/
structure ParseState where
  page : Page
  sort : SortSetting
  filterParams : List FilterParam
  deriving DecidableEq, Repr

/-- One iteration of the `range` loop of `SetQueryParams`, for the map entry
`key ↦ values`.  Indexing `values[len(values)-1]` or `searchKeys[1]` out of
range panics. -/
def setQueryParamsStep (st : ParseState) (key : Str) (values : List Str) : Option ParseState :=
  match values[values.length - 1]? with
  | none => none
  | some queryValue =>
    let st1 : ParseState :=
      if key = PageLimit then
        { st with page := { st.page with Limit := (strconv.Atoi queryValue).1 } }
      else if key = PageNumber then
        { st with page := { st.page with Number := (strconv.Atoi queryValue).1 } }
      else if key = SortBy then
        { st with sort := { st.sort with By := queryValue } }
      else if key = SortDirection then
        { st with sort := { st.sort with Direction := queryValue } }
      else st
    if strings.Contains key '.' then
      let searchKeys := strings.Split key '.'
      match searchKeys[0]?, searchKeys[1]? with
      | some attr, some action =>
        some { st1 with
          filterParams := st1.filterParams ++
            [{ Attribute := attr, Action := action, Value := queryValue }] }
      | _, _ => none
    else some st1

/-- The `range` loop of `SetQueryParams` over the entries in visiting order. -/
def setQueryParamsLoop (st : ParseState) : List (Str × List Str) → Option ParseState
  | [] => some st
  | (key, values) :: rest =>
    match setQueryParamsStep st key values with
    | none => none
    | some st1 => setQueryParamsLoop st1 rest

/-- The function `SetQueryParams`; the argument lists the entries of the map in
the order the `range` loop visits them. -/
def SetQueryParams (queryParams : List (Str × List Str)) : Option QueryParams :=
  match setQueryParamsLoop
      { page := DefaultPage, sort := DefaultSort, filterParams := [] } queryParams with
  | none => none
  | some st => some { Page := st.page, Sorting := st.sort, FilterParams := st.filterParams }

/-! ## repository.go -/

/-- The executing side of the ORM client, for records of type `Model` and
attribute values of type `Value`: each field is what the corresponding call
chain on `repo.dbClient` yields. -/
structure DBClient (Model Value : Type) where
  /-- The call `Table(t).Create(&dataObject)`: the object afterwards, and `.Error`. -/
  Create : Str → Model → Model × Option GoError
  /-- The call `Table(t).Create(&dataObjects)`: the objects afterwards, and `.Error`. -/
  CreateBulk : Str → List Model → List Model × Option GoError
  /-- The call `Table(t).Where(queryParams).Delete(&model)`. -/
  Delete : Str → List (Str × Value) → Model → gorm.Result
  /-- The call `Table(t).Where(queryParams).UpdateColumns(data)`. -/
  UpdateColumns : Str → List (Str × Value) → List (Str × Value) → gorm.Result
  /-- The call `dbQuery.Find(&dataObjects)`: the rows read, and `.Error`. -/
  Find : gorm.DB → List Model × Option GoError
  /-- The call `dbQuery.Count(&totalCount)`: the count, and `.Error`. -/
  Count : gorm.DB → Int × Option GoError

/-- The Go struct `CommonRepository`. -/
structure CommonRepository (Model Value : Type) where
  genericModelStruct : Model
  tableName : Str
  dbClient : DBClient Model Value

/-- The method `CreateRecord`: the returned record and error. -/
def CommonRepository.CreateRecord {Model Value : Type} (repo : CommonRepository Model Value)
    (dataObject : Model) : Option (Model × Option GoError) :=
  let (created, err) := repo.dbClient.Create repo.tableName dataObject
  if err ≠ none then
    match ParseDuplicateEntry err with
    | none => none
    | some (ok, _) =>
      if ok then some (repo.genericModelStruct, some gorm.ErrDuplicatedKey)
      else some (repo.genericModelStruct, err)
  else some (created, none)

/-- The method `CreateBulkRecords`: the returned records (nil is `[]`) and error. -/
def CommonRepository.CreateBulkRecords {Model Value : Type} (repo : CommonRepository Model Value)
    (dataObjects : List Model) : Option (List Model × Option GoError) :=
  let (created, err) := repo.dbClient.CreateBulk repo.tableName dataObjects
  if err ≠ none then
    match ParseDuplicateEntry err with
    | none => none
    | some (ok, _) =>
      if ok then some ([], some gorm.ErrDuplicatedKey)
      else some ([], err)
  else some (created, none)

/-- The method `DeleteRecordsByAttributes`. -/
def CommonRepository.DeleteRecordsByAttributes {Model Value : Type}
    (repo : CommonRepository Model Value) (queryParams : List (Str × Value)) : Option GoError :=
  let res := repo.dbClient.Delete repo.tableName queryParams repo.genericModelStruct
  if res.Error ≠ none then res.Error
  else if res.RowsAffected = 0 then some gorm.ErrRecordNotFound
  else none

/-- The method `DeleteRecordByID`. -/
def CommonRepository.DeleteRecordByID {Model Value : Type}
    (repo : CommonRepository Model Value) (queryID : Value) : Option GoError :=
  repo.DeleteRecordsByAttributes [("id".toList, queryID)]

/-- The method `GetRecordsByQueryParams`; `none` is the nil `*QueryParams`. -/
def CommonRepository.GetRecordsByQueryParams {Model Value : Type}
    (repo : CommonRepository Model Value) (queryParams : Option QueryParams) :
    List Model × Option GoError :=
  let dbQuery := gorm.Table repo.tableName
  let dbQuery :=
    match queryParams with
    | some qp =>
      ((dbQuery.Scopes (qp.FilterByParams repo.tableName)).Scopes qp.Paginate).Scopes
        qp.SortByDirection
    | none => dbQuery
  let (dataObjects, err) := repo.dbClient.Find dbQuery
  if err ≠ none then ([], err) else (dataObjects, none)

/-- The method `GetRecordCount`; `none` is the nil `*QueryParams`. -/
def CommonRepository.GetRecordCount {Model Value : Type}
    (repo : CommonRepository Model Value) (queryParams : Option QueryParams) :
    Int × Option GoError :=
  let dbQuery := gorm.Table repo.tableName
  let dbQuery :=
    match queryParams with
    | some qp => dbQuery.Scopes (qp.FilterByParams repo.tableName)
    | none => dbQuery
  let (totalCount, err) := repo.dbClient.Count dbQuery
  if err ≠ none then (0, err) else (totalCount, none)

/-- The method `UpdateRecordsByAttributes`. -/
def CommonRepository.UpdateRecordsByAttributes {Model Value : Type}
    (repo : CommonRepository Model Value) (queryParams data : List (Str × Value)) :
    Option GoError :=
  let res := repo.dbClient.UpdateColumns repo.tableName queryParams data
  if res.Error ≠ none then res.Error
  else none

/-- The method `UpdateRecordByID`. -/
def CommonRepository.UpdateRecordByID {Model Value : Type}
    (repo : CommonRepository Model Value) (queryID : Value) (data : List (Str × Value)) :
    Option GoError :=
  repo.UpdateRecordsByAttributes [("id".toList, queryID)] data

/-! ## Concrete collaborators for the worked examples -/

/-- The record type of the repository's test, `models.User`. -/
structure User where
  Id : Int
  Name : Str
  City : Str
  deriving DecidableEq, Repr

/-- An ORM client whose creates end with the error `createErr` (nil for success,
leaving the objects as they are), whose deletes and updates report `deleteRes`,
whose reads find no row and whose counts report the number of clauses of the
query they are given. -/
def stubClient (createErr : Option GoError) (deleteRes : gorm.Result) : DBClient User Str :=
  { Create := fun _ dataObject => (dataObject, createErr)
    CreateBulk := fun _ dataObjects => (dataObjects, createErr)
    Delete := fun _ _ _ => deleteRes
    UpdateColumns := fun _ _ _ => deleteRes
    Find := fun _ => ([], none)
    Count := fun dbQuery => ((dbQuery.clauses.length : Int), none) }

/-- The repository `NewCommonRepository[User]("users", db)` over `stubClient`;
its `genericModelStruct` is the zero value of `User`. -/
def stubRepo (createErr : Option GoError) (deleteRes : gorm.Result) : CommonRepository User Str :=
  { genericModelStruct := { Id := 0, Name := [], City := [] }
    tableName := "users".toList
    dbClient := stubClient createErr deleteRes }

/-- The user created in the repository's test. -/
def nafi : User := { Id := 1, Name := "nafi".toList, City := "dhaka".toList }

/-- The engine's message for a duplicate of the composite key `5-dhaka`. -/
def duplicateCityMessage : Str :=
  "Error 1062 (23000): Duplicate entry '5-dhaka' for key 'users.idx_user_city'".toList

/-- The engine's message for a duplicate e-mail address. -/
def duplicateEmailMessage : Str :=
  "Error 1062 (23000): Duplicate entry 'a@b.com' for key 'users.email'".toList

/-- The engine's message for a duplicate name that contains a space. -/
def duplicateNameMessage : Str :=
  "Error 1062 (23000): Duplicate entry 'john doe' for key 'users.name'".toList

/-- A write result without error. -/
def okResult : gorm.Result := { Error := none, RowsAffected := 1 }

/-- The raw input of the specification's example, in one visiting order. -/
def specExample : List (Str × List Str) :=
  [("limit".toList, ["20".toList]), ("page".toList, ["2".toList]),
   ("sort_by".toList, ["name".toList]), ("name.like".toList, ["bon".toList])]

/-- A raw input with two filter keys, in one visiting order. -/
def twoFilters : List (Str × List Str) :=
  [("name.like".toList, ["bon".toList]), ("city.equals".toList, ["dhaka".toList])]

/-- Query parameters as `SetQueryParams` builds them from
`page=4611686018427387905&limit=4`. -/
def hugePage : QueryParams :=
  { Page := { Number := 4611686018427387905, Limit := 4 }, Sorting := DefaultSort,
    FilterParams := [] }

/-- Query parameters with the defaults and two filters. -/
def filterExample : QueryParams :=
  { Page := DefaultPage, Sorting := DefaultSort,
    FilterParams :=
      [{ Attribute := "name".toList, Action := Like, Value := "bon".toList },
       { Attribute := "id".toList, Action := In, Value := "1,2,3".toList }] }

/-- A raw input with a negative page and a signed limit with a leading zero. -/
def signedExample : List (Str × List Str) :=
  [("page".toList, ["-3".toList]), ("limit".toList, ["+07".toList])]

/-- A decimal numeral: an optional sign followed by at least one decimal digit
and nothing else. -/
def isNumeric (s : Str) : Bool :=
  match s with
  | [] => false
  | c :: rest =>
    let digits : Str := if c == '+' || c == '-' then rest else c :: rest
    !digits.isEmpty && digits.all Char.isDigit

/-- The integer that a decimal numeral denotes: the positional value of its
digits in base 10, negated after a minus sign. -/
def numeralValue (s : Str) : Int :=
  match s with
  | [] => 0
  | c :: rest =>
    let digits : Str := if c == '+' || c == '-' then rest else c :: rest
    let magnitude : Nat := Nat.ofDigits 10 ((digits.map (fun d => d.toNat - 48)).reverse)
    if c == '-' then -(magnitude : Int) else (magnitude : Int)

/-! ## The language of the duplicate-key pattern -/

/-- The denotation of `dbKeyDuplicateErrorPattern` on the message `msg`: after
the text `pre` comes an occurrence of the pattern whose groups are `entry` and
`key`, and `post` is the text after the occurrence. -/
def MatchesAt (msg pre entry key post : Str) : Prop :=
  msg = pre ++ (patternHead ++ entry ++ patternMid ++ key ++ patternTail) ++ post ∧
    entry ≠ [] ∧ (∀ c ∈ entry, isEntryChar c = true) ∧
    key ≠ [] ∧ (∀ c ∈ key, isKeyChar c = true)

/-! # Theorems -/

/-! ## Lemmas on the library functions -/

namespace strings

theorem Split_ne_nil (s : Str) (sep : Char) : Split s sep ≠ [] := by
  induction s with
  | nil => simp [Split]
  | cons c cs ih =>
    rw [Split]
    split
    · simp
    · split <;> simp

theorem Split_eq_splitOn (s : Str) (sep : Char) : Split s sep = s.splitOn sep := by
  induction s with
  | nil => simp [Split, List.splitOn]
  | cons c cs ih =>
    have ih2 : Split cs sep = List.splitOnP (fun x => x == sep) cs := ih
    rw [Split, List.splitOn, List.splitOnP_cons]
    by_cases h : c = sep
    · simp [h, ih2]
    · have h2 : (c == sep) = false := by simpa using h
      simp only [h, h2, ↓reduceIte, Bool.false_eq_true]
      rw [← ih2]
      cases hsp : Split cs sep with
      | nil => exact absurd hsp (Split_ne_nil cs sep)
      | cons p ps => simp

theorem Split_head (s : Str) (sep : Char) :
    (Split s sep)[0]? = some (s.takeWhile (fun c => c != sep)) := by
  induction s with
  | nil => simp [Split]
  | cons c cs ih =>
    rw [Split]
    by_cases h : c = sep
    · simp [h]
    · simp only [h, ↓reduceIte]
      have h2 : (c != sep) = true := by simpa using h
      rw [List.takeWhile_cons]
      simp only [h2, ↓reduceIte]
      cases hsp : Split cs sep with
      | nil => exact absurd hsp (Split_ne_nil cs sep)
      | cons p ps =>
        rw [hsp] at ih
        simp at ih ⊢
        exact ih

end strings

/-! ## The matcher decides the language of the pattern -/

namespace regexp

theorem dropLiteral_append (lit s : Str) : dropLiteral lit (lit ++ s) = some s := by
  induction lit with
  | nil => cases s <;> rfl
  | cons a lit ih => simp [dropLiteral, ih]

theorem dropLiteral_eq_some {lit s r : Str} (h : dropLiteral lit s = some r) : s = lit ++ r := by
  induction lit generalizing s with
  | nil =>
    cases s <;> simp [dropLiteral] at h <;> simp [h]
  | cons a lit ih =>
    cases s with
    | nil => simp [dropLiteral] at h
    | cons c s =>
      simp only [dropLiteral] at h
      split at h
      · next hac => rw [ih h, hac]; rfl
      · cases h

theorem patternMid_eq_cons : patternMid = quote :: (" for key ".toList ++ [quote]) := by
  decide

theorem patternTail_eq_cons : patternTail = [quote] := by
  decide

theorem takeWhile_entry_mid (entry rest : Str) (h : ∀ c ∈ entry, isEntryChar c = true) :
    (entry ++ (patternMid ++ rest)).takeWhile isEntryChar = entry := by
  rw [List.takeWhile_append_of_pos h]
  have : (patternMid ++ rest).takeWhile isEntryChar = [] := by
    simp [patternMid_eq_cons, List.takeWhile_cons, show isEntryChar quote = false by decide]
  rw [this, List.append_nil]

theorem dropWhile_entry_mid (entry rest : Str) (h : ∀ c ∈ entry, isEntryChar c = true) :
    (entry ++ (patternMid ++ rest)).dropWhile isEntryChar = patternMid ++ rest := by
  rw [List.dropWhile_append_of_pos h]
  simp [patternMid_eq_cons, List.dropWhile_cons, show isEntryChar quote = false by decide]

theorem takeWhile_key_tail (key rest : Str) (h : ∀ c ∈ key, isKeyChar c = true) :
    (key ++ (patternTail ++ rest)).takeWhile isKeyChar = key := by
  rw [List.takeWhile_append_of_pos h]
  have : (patternTail ++ rest).takeWhile isKeyChar = [] := by
    simp [patternTail_eq_cons, List.takeWhile_cons, show isKeyChar quote = false by decide]
  rw [this, List.append_nil]

theorem dropWhile_key_tail (key rest : Str) (h : ∀ c ∈ key, isKeyChar c = true) :
    (key ++ (patternTail ++ rest)).dropWhile isKeyChar = patternTail ++ rest := by
  rw [List.dropWhile_append_of_pos h]
  simp [patternTail_eq_cons, List.dropWhile_cons, show isKeyChar quote = false by decide]

theorem matchHere_complete {s entry key post : Str} (h : MatchesAt s [] entry key post) :
    matchHere s = some (entry, key) := by
  obtain ⟨hs, hne, hec, hkne, hkc⟩ := h
  have hs2 : s = patternHead ++ (entry ++ (patternMid ++ (key ++ (patternTail ++ post)))) := by
    rw [hs]; simp [List.append_assoc]
  unfold matchHere
  rw [hs2, dropLiteral_append]
  simp only [takeWhile_entry_mid _ _ hec, dropWhile_entry_mid _ _ hec, dropLiteral_append,
    takeWhile_key_tail _ _ hkc, dropWhile_key_tail _ _ hkc]
  cases entry with
  | nil => exact absurd rfl hne
  | cons a entry =>
    cases key with
    | nil => exact absurd rfl hkne
    | cons b key => simp

theorem matchHere_sound {s entry key : Str} (h : matchHere s = some (entry, key)) :
    ∃ post, MatchesAt s [] entry key post := by
  unfold matchHere at h
  split at h
  · cases h
  · next r1 h1 =>
    simp only at h
    split at h
    · cases h
    · next hentry =>
      split at h
      · cases h
      · next r3 h3 =>
        split at h
        · cases h
        · next hkey =>
          split at h
          · cases h
          · next r5 h5 =>
            simp only [Option.some.injEq, Prod.mk.injEq] at h
            obtain ⟨he, hk⟩ := h
            refine ⟨r5, ?_, ?_, ?_, ?_, ?_⟩
            · have e1 := dropLiteral_eq_some h1
              have e3 := dropLiteral_eq_some h3
              have e5 := dropLiteral_eq_some h5
              have d1 := List.takeWhile_append_dropWhile isEntryChar r1
              have d3 := List.takeWhile_append_dropWhile isKeyChar r3
              rw [e1, ← d1, e3, ← d3, e5, he, hk]
              simp [List.append_assoc]
            · rw [← he]; intro h0; rw [h0] at hentry; simp at hentry
            · rw [← he]; intro c hc; exact List.mem_takeWhile_imp hc
            · rw [← hk]; intro h0; rw [h0] at hkey; simp at hkey
            · rw [← hk]; intro c hc; exact List.mem_takeWhile_imp hc


theorem MatchesAt_cons {a : Char} {msg pre entry key post : Str} :
    MatchesAt (a :: msg) (a :: pre) entry key post ↔ MatchesAt msg pre entry key post := by
  unfold MatchesAt
  simp [List.cons_append]

theorem MatchesAt_cons_inv {a : Char} {msg pre entry key post : Str} {b : Char}
    (h : MatchesAt (a :: msg) (b :: pre) entry key post) : MatchesAt msg pre entry key post := by
  have hab : a = b := by
    have := h.1
    simp [List.cons_append] at this
    exact this.1
  subst hab
  exact MatchesAt_cons.mp h

theorem FindStringSubmatch_leftmost {msg pre entry key post : Str}
    (h : MatchesAt msg pre entry key post)
    (hleft : ∀ pre1 entry1 key1 post1, MatchesAt msg pre1 entry1 key1 post1 →
      pre.length ≤ pre1.length) :
    FindStringSubmatch msg =
      [patternHead ++ entry ++ patternMid ++ key ++ patternTail, entry, key] := by
  induction pre generalizing msg with
  | nil =>
    cases msg <;> simp [FindStringSubmatch, matchHere_complete h, submatches]
  | cons a pre ih =>
    cases msg with
    | nil =>
      have := h.1
      simp at this
    | cons b msg =>
      have hm : matchHere (b :: msg) = none := by
        cases hm : matchHere (b :: msg) with
        | none => rfl
        | some r =>
          obtain ⟨e1, k1⟩ := r
          obtain ⟨post1, h1⟩ := matchHere_sound hm
          have := hleft _ _ _ _ h1
          simp at this
      rw [FindStringSubmatch, hm]
      apply ih (MatchesAt_cons_inv h)
      intro pre1 entry1 key1 post1 h1
      have := hleft (b :: pre1) entry1 key1 post1 (MatchesAt_cons.mpr h1)
      simpa using this

theorem FindStringSubmatch_cases (msg : Str) :
    (FindStringSubmatch msg = [] ∧ ¬ ∃ pre entry key post, MatchesAt msg pre entry key post) ∨
    (∃ pre entry key post, MatchesAt msg pre entry key post ∧
      FindStringSubmatch msg =
        [patternHead ++ entry ++ patternMid ++ key ++ patternTail, entry, key]) := by
  induction msg with
  | nil =>
    left
    constructor
    · rfl
    · rintro ⟨pre, entry, key, post, h, -⟩
      have hl := congrArg List.length h
      simp [patternHead] at hl
      omega
  | cons a msg ih =>
    cases hm : matchHere (a :: msg) with
    | some r =>
      obtain ⟨e1, k1⟩ := r
      obtain ⟨post1, h1⟩ := matchHere_sound hm
      right
      refine ⟨[], e1, k1, post1, h1, ?_⟩
      rw [FindStringSubmatch, hm]
      rfl
    | none =>
      have hrec : FindStringSubmatch (a :: msg) = FindStringSubmatch msg := by
        rw [FindStringSubmatch, hm]
      rcases ih with ⟨hnil, hno⟩ | ⟨pre, entry, key, post, h, hf⟩
      · left
        refine ⟨by rw [hrec, hnil], ?_⟩
        rintro ⟨pre, entry, key, post, h⟩
        cases pre with
        | nil => rw [matchHere_complete h] at hm; cases hm
        | cons b pre => exact hno ⟨pre, entry, key, post, MatchesAt_cons_inv h⟩
      · right
        exact ⟨a :: pre, entry, key, post, MatchesAt_cons.mpr h, by rw [hrec, hf]⟩

theorem FindStringSubmatch_eq_nil_iff (msg : Str) :
    FindStringSubmatch msg = [] ↔ ¬ ∃ pre entry key post, MatchesAt msg pre entry key post := by
  rcases FindStringSubmatch_cases msg with ⟨hnil, hno⟩ | ⟨pre, entry, key, post, h, hf⟩
  · exact ⟨fun _ => hno, fun _ => hnil⟩
  · constructor
    · intro h0; rw [h0] at hf; cases hf
    · intro hno; exact absurd ⟨pre, entry, key, post, h⟩ hno

end regexp

/-! ## errors.go -/

theorem ParseDuplicateEntry_find_nil {e : GoError}
    (h : regexp.FindStringSubmatch e.Error = []) :
    ParseDuplicateEntry (some e) = some (false, []) := by
  simp [ParseDuplicateEntry, h]

theorem ParseDuplicateEntry_find_groups {e : GoError} {whole entry key : Str}
    (h : regexp.FindStringSubmatch e.Error = [whole, entry, key]) :
    ParseDuplicateEntry (some e) =
      some (true, key.takeWhile (fun c => c != '.') ::
        (entry.splitOn '-').filter (fun v => v != [])) := by
  simp only [ParseDuplicateEntry, h, strings.Split_head]
  simp [strings.Split_eq_splitOn]

/-- C1. For every error whose message has an occurrence of the duplicate-key
pattern `Error 1062 (23000): Duplicate entry '<entry>' for key '<key>'`, taken at
its leftmost position (which is the whole message for the engine's own messages),
`ParseDuplicateEntry` returns true together with the tokens: the part of the
key before its first dot (the table name), then the non-empty hyphen-separated
segments of the entry, in their original order. -/
theorem ParseDuplicateEntry_match (e : GoError) (pre entry key post : Str)
    (hmatch : MatchesAt e.Error pre entry key post)
    (hleft : ∀ pre1 entry1 key1 post1, MatchesAt e.Error pre1 entry1 key1 post1 →
      pre.length ≤ pre1.length) :
    ParseDuplicateEntry (some e) =
      some (true, key.takeWhile (fun c => c != '.') ::
        (entry.splitOn '-').filter (fun v => v != [])) :=
  ParseDuplicateEntry_find_groups (regexp.FindStringSubmatch_leftmost hmatch hleft)

/-- The example of the specification for C1. -/
theorem ParseDuplicateEntry_match_witness :
    ParseDuplicateEntry (some (GoError.other duplicateCityMessage)) =
      some (true, ["users".toList, "5".toList, "dhaka".toList]) :=
  ParseDuplicateEntry_match _ [] "5-dhaka".toList "users.idx_user_city".toList []
    ⟨by decide, by decide, by decide, by decide, by decide⟩ (fun _ _ _ _ _ => Nat.zero_le _)

/-- C2. For every error whose message has no occurrence of the duplicate-key
pattern, `ParseDuplicateEntry` returns `(false, nil)`: the flag is false and the
token list is empty. -/
theorem ParseDuplicateEntry_no_match (e : GoError)
    (hno : ¬ ∃ pre entry key post, MatchesAt e.Error pre entry key post) :
    ParseDuplicateEntry (some e) = some (false, []) :=
  ParseDuplicateEntry_find_nil ((regexp.FindStringSubmatch_eq_nil_iff _).mpr hno)

/-- The example of the specification for C2: `connection refused`. -/
theorem ParseDuplicateEntry_no_match_witness :
    ParseDuplicateEntry (some (GoError.other "connection refused".toList)) = some (false, []) :=
  ParseDuplicateEntry_no_match _
    ((regexp.FindStringSubmatch_eq_nil_iff _).mp (by decide))


/-! ## repository.go: create and delete -/

theorem ParseDuplicateEntry_cases (e : GoError) :
    ParseDuplicateEntry (some e) = some (false, []) ∨
      ∃ tokens, ParseDuplicateEntry (some e) = some (true, tokens) := by
  rcases regexp.FindStringSubmatch_cases e.Error with ⟨hnil, -⟩ | ⟨pre, entry, key, post, -, hf⟩
  · exact Or.inl (ParseDuplicateEntry_find_nil hnil)
  · exact Or.inr ⟨_, ParseDuplicateEntry_find_groups hf⟩

theorem CreateRecord_of_error {Model Value : Type} (repo : CommonRepository Model Value)
    (dataObject created : Model) (e : GoError) (ok : Bool) (tokens : List Str)
    (hdb : repo.dbClient.Create repo.tableName dataObject = (created, some e))
    (hparse : ParseDuplicateEntry (some e) = some (ok, tokens)) :
    repo.CreateRecord dataObject =
      some (repo.genericModelStruct, some (if ok then gorm.ErrDuplicatedKey else e)) := by
  unfold CommonRepository.CreateRecord
  rw [hdb]
  simp only [ne_eq, reduceCtorEq, not_false_eq_true, ↓reduceIte, hparse]
  cases ok <;> simp

theorem CreateBulkRecords_of_error {Model Value : Type} (repo : CommonRepository Model Value)
    (dataObjects created : List Model) (e : GoError) (ok : Bool) (tokens : List Str)
    (hdb : repo.dbClient.CreateBulk repo.tableName dataObjects = (created, some e))
    (hparse : ParseDuplicateEntry (some e) = some (ok, tokens)) :
    repo.CreateBulkRecords dataObjects =
      some ([], some (if ok then gorm.ErrDuplicatedKey else e)) := by
  unfold CommonRepository.CreateBulkRecords
  rw [hdb]
  simp only [ne_eq, reduceCtorEq, not_false_eq_true, ↓reduceIte, hparse]
  cases ok <;> simp

/-- C3, amended. For `CreateRecord` and `CreateBulkRecords`: when the underlying
create succeeds, the operation returns the created record(s) and no error; when
it fails with the error `e`, the operation returns `gorm.ErrDuplicatedKey` if
`ParseDuplicateEntry(e)` reports a match and returns exactly `e` otherwise.  So
the returned error is `gorm.ErrDuplicatedKey` if and only if
`ParseDuplicateEntry(e)` reports a match or `e` is `gorm.ErrDuplicatedKey`
already. -/
theorem Create_error_normalization {Model Value : Type} (repo : CommonRepository Model Value)
    (dataObject : Model) (dataObjects : List Model) :
    ((∀ created, repo.dbClient.Create repo.tableName dataObject = (created, none) →
        repo.CreateRecord dataObject = some (created, none)) ∧
      (∀ created e, repo.dbClient.Create repo.tableName dataObject = (created, some e) →
        ((∃ tokens, ParseDuplicateEntry (some e) = some (true, tokens)) →
          repo.CreateRecord dataObject =
            some (repo.genericModelStruct, some gorm.ErrDuplicatedKey)) ∧
        (ParseDuplicateEntry (some e) = some (false, []) →
          repo.CreateRecord dataObject = some (repo.genericModelStruct, some e)) ∧
        (repo.CreateRecord dataObject =
            some (repo.genericModelStruct, some gorm.ErrDuplicatedKey) ↔
          ((∃ tokens, ParseDuplicateEntry (some e) = some (true, tokens)) ∨
            e = gorm.ErrDuplicatedKey)))) ∧
    ((∀ created, repo.dbClient.CreateBulk repo.tableName dataObjects = (created, none) →
        repo.CreateBulkRecords dataObjects = some (created, none)) ∧
      (∀ created e, repo.dbClient.CreateBulk repo.tableName dataObjects = (created, some e) →
        ((∃ tokens, ParseDuplicateEntry (some e) = some (true, tokens)) →
          repo.CreateBulkRecords dataObjects = some ([], some gorm.ErrDuplicatedKey)) ∧
        (ParseDuplicateEntry (some e) = some (false, []) →
          repo.CreateBulkRecords dataObjects = some ([], some e)) ∧
        (repo.CreateBulkRecords dataObjects = some ([], some gorm.ErrDuplicatedKey) ↔
          ((∃ tokens, ParseDuplicateEntry (some e) = some (true, tokens)) ∨
            e = gorm.ErrDuplicatedKey)))) := by
  refine ⟨⟨?_, ?_⟩, ⟨?_, ?_⟩⟩
  · intro created hdb
    simp [CommonRepository.CreateRecord, hdb]
  · intro created e hdb
    refine ⟨?_, ?_, ?_⟩
    · rintro ⟨tokens, ht⟩
      simpa using CreateRecord_of_error repo dataObject created e true tokens hdb ht
    · intro hf
      simpa using CreateRecord_of_error repo dataObject created e false [] hdb hf
    · rcases ParseDuplicateEntry_cases e with hf | ⟨tokens, ht⟩
      · have hr := CreateRecord_of_error repo dataObject created e false [] hdb hf
        rw [hr, hf]
        simp
      · have hr := CreateRecord_of_error repo dataObject created e true tokens hdb ht
        rw [hr, ht]
        simp
  · intro created hdb
    simp [CommonRepository.CreateBulkRecords, hdb]
  · intro created e hdb
    refine ⟨?_, ?_, ?_⟩
    · rintro ⟨tokens, ht⟩
      simpa using CreateBulkRecords_of_error repo dataObjects created e true tokens hdb ht
    · intro hf
      simpa using CreateBulkRecords_of_error repo dataObjects created e false [] hdb hf
    · rcases ParseDuplicateEntry_cases e with hf | ⟨tokens, ht⟩
      · have hr := CreateBulkRecords_of_error repo dataObjects created e false [] hdb hf
        rw [hr, hf]
        simp
      · have hr := CreateBulkRecords_of_error repo dataObjects created e true tokens hdb ht
        rw [hr, ht]
        simp


/-- A create failing with the engine's duplicate-key message is normalized. -/
theorem Create_error_normalization_witness :
    (stubRepo (some (GoError.other duplicateCityMessage)) okResult).CreateRecord nafi =
      some ({ Id := 0, Name := [], City := [] }, some gorm.ErrDuplicatedKey) :=
  ((Create_error_normalization (stubRepo (some (GoError.other duplicateCityMessage)) okResult)
      nafi [nafi]).1.2 nafi (GoError.other duplicateCityMessage) rfl).1
    ⟨["users".toList, "5".toList, "dhaka".toList], by decide⟩

/-- When the underlying create fails with `gorm.ErrDuplicatedKey` itself, the
operation returns `gorm.ErrDuplicatedKey` although `ParseDuplicateEntry` reports
no match. -/
theorem Create_duplicatedKey_without_match :
    ¬ ((stubRepo (some gorm.ErrDuplicatedKey) okResult).CreateRecord nafi =
          some ({ Id := 0, Name := [], City := [] }, some gorm.ErrDuplicatedKey) ↔
        ∃ tokens, ParseDuplicateEntry (some gorm.ErrDuplicatedKey) = some (true, tokens)) := by
  intro h
  obtain ⟨tokens, ht⟩ := h.mp (by decide)
  have hf : ParseDuplicateEntry (some gorm.ErrDuplicatedKey) = some (false, []) := by decide
  rw [hf] at ht
  cases ht

/-- C4. The create of a record whose e-mail address is already taken fails with
the engine's duplicate-key message for the entry `a@b.com`; `ParseDuplicateEntry`
reports no match on it and `CreateRecord` returns the raw driver error instead
of `gorm.ErrDuplicatedKey`; likewise for the duplicated name `john doe`. -/
theorem CreateRecord_unclassified_duplicate :
    (stubRepo (some (GoError.other duplicateEmailMessage)) okResult).CreateRecord nafi =
        some ({ Id := 0, Name := [], City := [] }, some (GoError.other duplicateEmailMessage)) ∧
      ParseDuplicateEntry (some (GoError.other duplicateEmailMessage)) = some (false, []) ∧
      (stubRepo (some (GoError.other duplicateNameMessage)) okResult).CreateRecord nafi =
        some ({ Id := 0, Name := [], City := [] }, some (GoError.other duplicateNameMessage)) := by
  decide

/-- C5. `DeleteRecordsByAttributes` returns the failure of the underlying delete
when there is one; otherwise it returns `gorm.ErrRecordNotFound` when zero rows
were affected and no error when at least one row was affected.
`DeleteRecordByID` is `DeleteRecordsByAttributes` on the mapping `id ↦ queryID`. -/
theorem Delete_result {Model Value : Type} (repo : CommonRepository Model Value)
    (queryParams : List (Str × Value)) (queryID : Value) :
    (∀ e, (repo.dbClient.Delete repo.tableName queryParams repo.genericModelStruct).Error = some e →
      repo.DeleteRecordsByAttributes queryParams = some e) ∧
    ((repo.dbClient.Delete repo.tableName queryParams repo.genericModelStruct).Error = none →
      (repo.dbClient.Delete repo.tableName queryParams repo.genericModelStruct).RowsAffected = 0 →
      repo.DeleteRecordsByAttributes queryParams = some gorm.ErrRecordNotFound) ∧
    ((repo.dbClient.Delete repo.tableName queryParams repo.genericModelStruct).Error = none →
      1 ≤ (repo.dbClient.Delete repo.tableName queryParams repo.genericModelStruct).RowsAffected →
      repo.DeleteRecordsByAttributes queryParams = none) ∧
    repo.DeleteRecordByID queryID = repo.DeleteRecordsByAttributes [("id".toList, queryID)] := by
  refine ⟨?_, ?_, ?_, rfl⟩
  · intro e he
    simp [CommonRepository.DeleteRecordsByAttributes, he]
  · intro he hr
    simp [CommonRepository.DeleteRecordsByAttributes, he, hr]
  · intro he hr
    have : (repo.dbClient.Delete repo.tableName queryParams repo.genericModelStruct).RowsAffected ≠ 0 := by
      omega
    simp [CommonRepository.DeleteRecordsByAttributes, he, this]

/-- Deletes matching no row, matching two rows, and failing. -/
theorem Delete_result_witness :
    (stubRepo none { Error := none, RowsAffected := 0 }).DeleteRecordsByAttributes
        [("city".toList, "dhaka".toList)] = some gorm.ErrRecordNotFound ∧
      (stubRepo none { Error := none, RowsAffected := 2 }).DeleteRecordsByAttributes
        [("city".toList, "dhaka".toList)] = none ∧
      (stubRepo none { Error := some (GoError.other "connection refused".toList), RowsAffected := 0 }).DeleteRecordByID
        "7".toList = some (GoError.other "connection refused".toList) :=
  ⟨(Delete_result (stubRepo none { Error := none, RowsAffected := 0 })
      [("city".toList, "dhaka".toList)] []).2.1 rfl rfl,
   (Delete_result (stubRepo none { Error := none, RowsAffected := 2 })
      [("city".toList, "dhaka".toList)] []).2.2.1 rfl (by decide),
   (Delete_result (stubRepo none
      { Error := some (GoError.other "connection refused".toList), RowsAffected := 0 })
      [("id".toList, "7".toList)] "7".toList).1 _ rfl⟩


/-! ## strconv.Atoi -/
namespace strconv

theorem digit_toNat_le {c : Char} (h : c.isDigit = true) : c.toNat - 48 ≤ 9 := by
  simp only [Char.isDigit, Bool.and_eq_true, decide_eq_true_eq] at h
  obtain ⟨h1, h2⟩ := h
  have h2n : c.val.toNat ≤ 57 := h2
  show c.val.toNat - 48 ≤ 9
  omega

theorem parseUintLoop_bad (s : Str) (n : Nat) (h : ∃ c ∈ s, c.isDigit = false) :
    parseUintLoop n s = (0, some NumError.ErrSyntax) ∨
      parseUintLoop n s = (maxUint64, some NumError.ErrRange) := by
  induction s generalizing n with
  | nil => obtain ⟨c, hc, -⟩ := h; cases hc
  | cons a s ih =>
    rw [parseUintLoop]
    by_cases ha : a.isDigit = true
    · simp only [ha, ↓reduceIte]
      split
      · exact Or.inr rfl
      · split
        · exact Or.inr rfl
        · apply ih
          obtain ⟨c, hc, hcd⟩ := h
          rcases List.mem_cons.mp hc with rfl | hc
          · rw [ha] at hcd; cases hcd
          · exact ⟨c, hc, hcd⟩
    · simp [ha]

theorem parseUintLoop_bad_short (s : Str) (n k : Nat) (hn : n < 10 ^ k) (hk : s.length + k ≤ 19)
    (h : ∃ c ∈ s, c.isDigit = false) :
    parseUintLoop n s = (0, some NumError.ErrSyntax) := by
  induction s generalizing n k with
  | nil => obtain ⟨c, hc, -⟩ := h; cases hc
  | cons a s ih =>
    rw [parseUintLoop]
    by_cases ha : a.isDigit = true
    · have hd := digit_toNat_le ha
      simp only [List.length_cons] at hk
      have hk18 : k ≤ 18 := by omega
      have hn18 : n < 10 ^ 18 := lt_of_lt_of_le hn (Nat.pow_le_pow_right (by norm_num) hk18)
      have hn1 : n * 10 + (a.toNat - 48) < 10 ^ (k + 1) := by
        rw [pow_succ]; omega
      have hlt : n * 10 + (a.toNat - 48) < 2 ^ 64 := by
        have : n * 10 + (a.toNat - 48) < 10 ^ 19 := by omega
        omega
      have hmod : (n * 10 + (a.toNat - 48)) % 2 ^ 64 = n * 10 + (a.toNat - 48) :=
        Nat.mod_eq_of_lt hlt
      have hcut : ¬ (n ≥ maxUint64 / 10 + 1) := by
        simp only [maxUint64]; omega
      have hov : ¬ ((n * 10 + (a.toNat - 48)) % 2 ^ 64 < n * 10 ∨
          (n * 10 + (a.toNat - 48)) % 2 ^ 64 > maxUint64) := by
        rw [hmod]; simp only [maxUint64]; omega
      simp only [ha, ↓reduceIte, hcut, hov]
      rw [hmod]
      apply ih _ (k + 1) hn1 (by omega)
      obtain ⟨c, hc, hcd⟩ := h
      rcases List.mem_cons.mp hc with rfl | hc
      · rw [ha] at hcd; cases hcd
      · exact ⟨c, hc, hcd⟩
    · simp [ha]

theorem foldl_digits_ge (s : Str) (n : Nat) :
    n ≤ s.foldl (fun m c => m * 10 + (c.toNat - 48)) n := by
  induction s generalizing n with
  | nil => exact le_refl _
  | cons a s ih =>
    simp only [List.foldl_cons]
    exact le_trans (by omega) (ih _)

theorem parseUintLoop_digits (s : Str) (n : Nat) (hd : ∀ c ∈ s, c.isDigit = true)
    (hlt : s.foldl (fun m c => m * 10 + (c.toNat - 48)) n < 2 ^ 64) :
    parseUintLoop n s = (s.foldl (fun m c => m * 10 + (c.toNat - 48)) n, none) := by
  induction s generalizing n with
  | nil => rfl
  | cons a s ih =>
    rw [parseUintLoop]
    simp only [List.foldl_cons] at hlt ⊢
    have ha : a.isDigit = true := hd a (List.mem_cons_self _ _)
    have hge := foldl_digits_ge s (n * 10 + (a.toNat - 48))
    have hlt1 : n * 10 + (a.toNat - 48) < 2 ^ 64 := lt_of_le_of_lt hge hlt
    have hmod : (n * 10 + (a.toNat - 48)) % 2 ^ 64 = n * 10 + (a.toNat - 48) :=
      Nat.mod_eq_of_lt hlt1
    have hcut : ¬ (n ≥ maxUint64 / 10 + 1) := by
      simp only [maxUint64]; omega
    have hov : ¬ ((n * 10 + (a.toNat - 48)) % 2 ^ 64 < n * 10 ∨
        (n * 10 + (a.toNat - 48)) % 2 ^ 64 > maxUint64) := by
      rw [hmod]; simp only [maxUint64]; omega
    simp only [ha, ↓reduceIte, hcut, hov]
    rw [hmod]
    exact ih _ (fun c hc => hd c (List.mem_cons_of_mem _ hc)) hlt


theorem exists_non_digit {a : Char} {s : Str}
    (h : (!(a :: s).isEmpty && (a :: s).all Char.isDigit) = false) :
    ∃ c ∈ a :: s, c.isDigit = false := by
  by_contra hno
  have hall : (a :: s).all Char.isDigit = true := by
    rw [List.all_eq_true]
    intro c hc
    by_contra hcd
    exact hno ⟨c, hc, by simpa using hcd⟩
  rw [hall] at h
  simp at h

theorem ParseUint_bad (digits : Str) (h : (!digits.isEmpty && digits.all Char.isDigit) = false) :
    ParseUint digits = (0, some NumError.ErrSyntax) ∨
      ParseUint digits = (maxUint64, some NumError.ErrRange) := by
  unfold ParseUint
  cases digits with
  | nil => exact Or.inl rfl
  | cons a s =>
    have hbad : ∃ c ∈ a :: s, c.isDigit = false := exists_non_digit h
    simpa using parseUintLoop_bad (a :: s) 0 hbad

theorem ParseUint_bad_short (digits : Str)
    (h : (!digits.isEmpty && digits.all Char.isDigit) = false) (hlen : digits.length ≤ 19) :
    ParseUint digits = (0, some NumError.ErrSyntax) := by
  unfold ParseUint
  cases digits with
  | nil => rfl
  | cons a s =>
    have hbad : ∃ c ∈ a :: s, c.isDigit = false := exists_non_digit h
    simpa using parseUintLoop_bad_short (a :: s) 0 0 (by norm_num) (by simpa using hlen) hbad

theorem Atoi_not_numeric (v : Str) (h : isNumeric v = false) :
    Atoi v = (0, some NumError.ErrSyntax) ∨ Atoi v = (maxInt, some NumError.ErrRange) ∨
      Atoi v = (minInt, some NumError.ErrRange) := by
  unfold Atoi ParseInt
  cases v with
  | nil => exact Or.inl rfl
  | cons c rest =>
    simp only [isNumeric] at h
    rcases ParseUint_bad _ h with hp | hp
    · left
      simp only [hp]
    · right
      simp only [hp]
      by_cases hneg : c = '-'
      · right
        subst hneg
        simp [maxUint64, intSize, minInt]
      · left
        have : (c == '-') = false := by simpa using hneg
        simp [this, maxUint64, intSize, maxInt]

theorem Atoi_not_numeric_short (v : Str) (h : isNumeric v = false) (hlen : v.length ≤ 19) :
    Atoi v = (0, some NumError.ErrSyntax) := by
  unfold Atoi ParseInt
  cases v with
  | nil => rfl
  | cons c rest =>
    simp only [isNumeric] at h
    have hl : (if (c == '+' || c == '-') = true then rest else c :: rest).length ≤ 19 := by
      split
      · simp only [List.length_cons] at hlen; omega
      · exact hlen
    have hp := ParseUint_bad_short _ h hl
    simp only [hp]


theorem digitChar_spec (k : Nat) (h : k < 10) :
    (Nat.digitChar k).isDigit = true ∧ (Nat.digitChar k).toNat - 48 = k := by
  interval_cases k <;> decide

theorem toDigitsCore_all_digits (fuel n : Nat) (ds : Str) (h : ∀ c ∈ ds, c.isDigit = true) :
    ∀ c ∈ Nat.toDigitsCore 10 fuel n ds, c.isDigit = true := by
  induction fuel generalizing n ds with
  | zero => simpa [Nat.toDigitsCore] using h
  | succ fuel ih =>
    have hd := (digitChar_spec (n % 10) (Nat.mod_lt _ (by norm_num))).1
    have hds : ∀ c ∈ Nat.digitChar (n % 10) :: ds, c.isDigit = true := by
      intro c hc
      rcases List.mem_cons.mp hc with rfl | hc
      · exact hd
      · exact h c hc
    rw [Nat.toDigitsCore]
    split
    · exact hds
    · exact ih _ _ hds

theorem toDigitsCore_ne_nil (fuel n : Nat) (ds : Str) (h : ds ≠ [] ∨ 0 < fuel) :
    Nat.toDigitsCore 10 fuel n ds ≠ [] := by
  induction fuel generalizing n ds with
  | zero =>
    rcases h with h | h
    · simpa [Nat.toDigitsCore] using h
    · cases h
  | succ fuel ih =>
    rw [Nat.toDigitsCore]
    split
    · simp
    · exact ih _ _ (Or.inl (by simp))

theorem toDigitsCore_foldl (fuel n : Nat) (ds : Str) (hfuel : n < fuel) :
    (Nat.toDigitsCore 10 fuel n ds).foldl (fun m c => m * 10 + (c.toNat - 48)) 0 =
      ds.foldl (fun m c => m * 10 + (c.toNat - 48)) n := by
  induction fuel generalizing n ds with
  | zero => cases hfuel
  | succ fuel ih =>
    have hd := (digitChar_spec (n % 10) (Nat.mod_lt _ (by norm_num))).2
    rw [Nat.toDigitsCore]
    split
    · next h0 =>
      simp only [List.foldl_cons, hd]
      congr 1
      omega
    · next h0 =>
      rw [ih (n / 10) _ (by omega)]
      simp only [List.foldl_cons, hd]
      congr 1
      omega

theorem Atoi_repr (n : Nat) (h : n < 2 ^ 63) : Atoi (Nat.repr n).toList = ((n : Int), none) := by
  have hs : (Nat.repr n).toList = Nat.toDigits 10 n := rfl
  rw [hs]
  have hall : ∀ c ∈ Nat.toDigits 10 n, c.isDigit = true :=
    toDigitsCore_all_digits _ _ _ (fun c hc => by cases hc)
  have hne : Nat.toDigits 10 n ≠ [] := toDigitsCore_ne_nil _ _ _ (Or.inr (Nat.succ_pos n))
  have hval : (Nat.toDigits 10 n).foldl (fun m c => m * 10 + (c.toNat - 48)) 0 = n := by
    have := toDigitsCore_foldl (n + 1) n [] (Nat.lt_succ_self n)
    simpa [Nat.toDigits] using this
  have hloop : parseUintLoop 0 (Nat.toDigits 10 n) = (n, none) := by
    have := parseUintLoop_digits (Nat.toDigits 10 n) 0 hall (by rw [hval]; omega)
    rw [hval] at this
    exact this
  cases hd : Nat.toDigits 10 n with
  | nil => exact absurd hd hne
  | cons c rest =>
    have hc : c.isDigit = true := hall c (by rw [hd]; exact List.mem_cons_self _ _)
    have hplus : (c == '+') = false := by
      by_contra hx
      have : c = '+' := by simpa using hx
      rw [this] at hc
      exact absurd hc (by decide)
    have hminus : (c == '-') = false := by
      by_contra hx
      have : c = '-' := by simpa using hx
      rw [this] at hc
      exact absurd hc (by decide)
    rw [hd] at hloop
    have hpu : ParseUint (c :: rest) = (n, none) := by
      unfold ParseUint
      simpa using hloop
    unfold Atoi ParseInt
    simp only [hplus, hminus, Bool.or_self, Bool.false_eq_true, ↓reduceIte, hpu]
    have hcut : ¬ ((2 : Nat) ^ (intSize - 1) ≤ n) := by
      simp only [intSize]; omega
    simp [hcut]

theorem parseUintLoop_overflow (s : Str) (n : Nat) (hd : ∀ c ∈ s, c.isDigit = true)
    (hge : 2 ^ 64 ≤ s.foldl (fun m c => m * 10 + (c.toNat - 48)) n) (hn : n < 2 ^ 64) :
    parseUintLoop n s = (maxUint64, some NumError.ErrRange) := by
  induction s generalizing n with
  | nil => simp only [List.foldl_nil] at hge; omega
  | cons a s ih =>
    rw [parseUintLoop]
    simp only [List.foldl_cons] at hge
    have ha : a.isDigit = true := hd a (List.mem_cons_self _ _)
    have hdl := digit_toNat_le ha
    simp only [ha, ↓reduceIte]
    by_cases hcut : n ≥ maxUint64 / 10 + 1
    · rw [if_pos hcut]
    · rw [if_neg hcut]
      simp only [maxUint64] at hcut
      by_cases hov : n * 10 + (a.toNat - 48) < 2 ^ 64
      · have hmod : (n * 10 + (a.toNat - 48)) % 2 ^ 64 = n * 10 + (a.toNat - 48) :=
          Nat.mod_eq_of_lt hov
        have hno : ¬ ((n * 10 + (a.toNat - 48)) % 2 ^ 64 < n * 10 ∨
            (n * 10 + (a.toNat - 48)) % 2 ^ 64 > maxUint64) := by
          rw [hmod]; simp only [maxUint64]; omega
        simp only [hno, ↓reduceIte]
        rw [hmod]
        exact ih _ (fun c hc => hd c (List.mem_cons_of_mem _ hc)) hge hov
      · have hyes : (n * 10 + (a.toNat - 48)) % 2 ^ 64 < n * 10 ∨
            (n * 10 + (a.toNat - 48)) % 2 ^ 64 > maxUint64 := by
          left
          omega
        simp only [hyes, ↓reduceIte]

theorem foldl_digits_eq_ofDigits (s : Str) (n : Nat) :
    s.foldl (fun m c => m * 10 + (c.toNat - 48)) n =
      n * 10 ^ s.length + Nat.ofDigits 10 ((s.map (fun d => d.toNat - 48)).reverse) := by
  induction s generalizing n with
  | nil => simp
  | cons a s ih =>
    simp only [List.foldl_cons, List.map_cons, List.reverse_cons, List.length_cons]
    rw [ih, Nat.ofDigits_append, Nat.ofDigits_singleton]
    simp only [List.length_reverse, List.length_map]
    ring

theorem ParseUint_numeric (digits : Str) (hne : digits ≠ [])
    (hd : ∀ c ∈ digits, c.isDigit = true) :
    ParseUint digits =
      if Nat.ofDigits 10 ((digits.map (fun d => d.toNat - 48)).reverse) < 2 ^ 64 then
        (Nat.ofDigits 10 ((digits.map (fun d => d.toNat - 48)).reverse), none)
      else (maxUint64, some NumError.ErrRange) := by
  have hval := foldl_digits_eq_ofDigits digits 0
  simp only [zero_mul, zero_add] at hval
  unfold ParseUint
  have he : digits.isEmpty = false := by
    cases digits with
    | nil => exact absurd rfl hne
    | cons a s => rfl
  simp only [he, Bool.false_eq_true, ↓reduceIte]
  split
  · next hlt =>
    have := parseUintLoop_digits digits 0 hd (by rw [hval]; exact hlt)
    rw [this, hval]
  · next hge =>
    exact parseUintLoop_overflow digits 0 hd (by rw [hval]; omega) (by norm_num)

theorem Atoi_numeric (v : Str) (h : isNumeric v = true) :
    (Atoi v).1 = max minInt (min maxInt (numeralValue v)) ∧
      ((Atoi v).2 = none ↔ (minInt ≤ numeralValue v ∧ numeralValue v ≤ maxInt)) := by
  cases v with
  | nil => simp [isNumeric] at h
  | cons c rest =>
    simp only [isNumeric, Bool.and_eq_true, Bool.not_eq_true', List.all_eq_true] at h
    obtain ⟨hne, hd⟩ := h
    have hne2 : (if (c == '+' || c == '-') = true then rest else c :: rest) ≠ [] := by
      intro h0
      rw [h0] at hne
      simp at hne
    have hpu := ParseUint_numeric _ hne2 hd
    unfold Atoi ParseInt numeralValue
    simp only [hpu]
    generalize Nat.ofDigits 10
      ((List.map (fun d => d.toNat - 48)
        (if (c == '+' || c == '-') = true then rest else c :: rest)).reverse) = m
    have e63 : (2 : Nat) ^ (64 - 1) = 9223372036854775808 := by norm_num
    have e64 : (2 : Nat) ^ 64 = 18446744073709551616 := by norm_num
    have i63 : (2 : Int) ^ (64 - 1) = 9223372036854775808 := by norm_num
    simp only [maxInt, minInt, intSize, maxUint64, max_def, min_def, e63, e64, i63]
    by_cases hneg : c = '-'
    · have hb : (c == '-') = true := by simpa using hneg
      simp only [hb]
      by_cases h64 : m < 18446744073709551616
      · by_cases h63 : m > 9223372036854775808
        · simp [h64, h63]
          split_ifs <;> omega
        · simp [h64, h63]
          split_ifs <;> omega
      · simp [h64]
        split_ifs <;> omega
    · have hb : (c == '-') = false := by simpa using hneg
      simp only [hb]
      by_cases h64 : m < 18446744073709551616
      · by_cases h63 : m ≥ 9223372036854775808
        · simp [h64, h63]
          split_ifs <;> omega
        · simp [h64, h63]
          split_ifs <;> omega
      · simp [h64]
        split_ifs <;> omega

end strconv
/-! ## query_params.go: SetQueryParams -/

namespace strings

theorem Split_two_of_Contains (s : Str) (sep : Char) (h : Contains s sep = true) :
    ∃ a b rest, Split s sep = a :: b :: rest := by
  induction s with
  | nil => simp [Contains] at h
  | cons c cs ih =>
    rw [Split]
    by_cases hc : c = sep
    · simp only [hc, ↓reduceIte]
      cases hsp : Split cs sep with
      | nil => exact absurd hsp (Split_ne_nil cs sep)
      | cons p ps => exact ⟨[], p, ps, rfl⟩
    · simp only [hc, ↓reduceIte]
      have hcs : Contains cs sep = true := by
        have hm : sep ∈ c :: cs := by simpa [Contains] using h
        rcases List.mem_cons.mp hm with h1 | h1
        · exact absurd h1.symm hc
        · simpa [Contains] using h1
      obtain ⟨a, b, rest, hab⟩ := ih hcs
      rw [hab]
      exact ⟨c :: a, b, rest, rfl⟩

end strings

theorem getElem?_length_sub_one {α : Type} (l : List α) : l[l.length - 1]? = l.getLast? := by
  rw [List.getLast?_eq_getElem?]

/-- The state after one iteration, when the value sequence is not empty. -/
theorem setQueryParamsStep_eq {st st1 : ParseState} {key : Str} {values : List Str}
    (h : setQueryParamsStep st key values = some st1) :
    ∃ v, values.getLast? = some v ∧
      st1.page.Limit = (if key = PageLimit then (strconv.Atoi v).1 else st.page.Limit) ∧
      st1.page.Number = (if key = PageNumber then (strconv.Atoi v).1 else st.page.Number) ∧
      st1.sort.By = (if key = SortBy then v else st.sort.By) ∧
      st1.sort.Direction = (if key = SortDirection then v else st.sort.Direction) ∧
      st1.filterParams = st.filterParams ++
        (if strings.Contains key '.' then
          [{ Attribute := ((key.splitOn '.')[0]?).getD [],
             Action := ((key.splitOn '.')[1]?).getD [],
             Value := v }]
        else []) := by
  unfold setQueryParamsStep at h
  rw [getElem?_length_sub_one] at h
  cases hv : values.getLast? with
  | none => rw [hv] at h; cases h
  | some v =>
    rw [hv] at h
    refine ⟨v, rfl, ?_⟩
    simp only at h
    by_cases hdot : strings.Contains key '.' = true
    · obtain ⟨a, b, rest, hab⟩ := strings.Split_two_of_Contains key '.' hdot
      have hab2 : key.splitOn '.' = a :: b :: rest := by rw [← strings.Split_eq_splitOn, hab]
      simp only [hdot, ↓reduceIte, hab, List.getElem?_cons_zero, List.getElem?_cons_succ,
        Option.some.injEq] at h
      subst h
      simp only [hab2, List.getElem?_cons_zero, List.getElem?_cons_succ, Option.getD_some]
      have h1 : PageLimit ≠ PageNumber := by decide
      have h2 : PageLimit ≠ SortBy := by decide
      have h3 : PageLimit ≠ SortDirection := by decide
      have h4 : PageNumber ≠ SortBy := by decide
      have h5 : PageNumber ≠ SortDirection := by decide
      have h6 : SortBy ≠ SortDirection := by decide
      refine ⟨?_, ?_, ?_, ?_, ?_⟩ <;> (split_ifs <;> simp_all)
    · simp only [hdot, Bool.false_eq_true, ↓reduceIte, Option.some.injEq] at h
      subst h
      have h1 : PageLimit ≠ PageNumber := by decide
      have h2 : PageLimit ≠ SortBy := by decide
      have h3 : PageLimit ≠ SortDirection := by decide
      have h4 : PageNumber ≠ SortBy := by decide
      have h5 : PageNumber ≠ SortDirection := by decide
      have h6 : SortBy ≠ SortDirection := by decide
      refine ⟨?_, ?_, ?_, ?_, ?_⟩ <;> (split_ifs <;> simp_all)

theorem setQueryParamsStep_isSome (st : ParseState) (key : Str) {values : List Str}
    (h : values ≠ []) : ∃ st1, setQueryParamsStep st key values = some st1 := by
  unfold setQueryParamsStep
  rw [getElem?_length_sub_one]
  cases hv : values.getLast? with
  | none => simp at hv; exact absurd hv h
  | some v =>
    simp only
    by_cases hdot : strings.Contains key '.' = true
    · obtain ⟨a, b, rest, hab⟩ := strings.Split_two_of_Contains key '.' hdot
      simp [hdot, hab]
    · simp [hdot]


theorem setQueryParamsLoop_cons {st st2 : ParseState} {key : Str} {values : List Str}
    {rest : List (Str × List Str)}
    (h : setQueryParamsLoop st ((key, values) :: rest) = some st2) :
    ∃ st1, setQueryParamsStep st key values = some st1 ∧ setQueryParamsLoop st1 rest = some st2 := by
  rw [setQueryParamsLoop] at h
  cases hs : setQueryParamsStep st key values with
  | none => rw [hs] at h; cases h
  | some st1 => rw [hs] at h; exact ⟨st1, rfl, h⟩

theorem setQueryParamsLoop_isSome (entries : List (Str × List Str)) (st : ParseState)
    (hne : ∀ e ∈ entries, e.2 ≠ []) : ∃ st2, setQueryParamsLoop st entries = some st2 := by
  induction entries generalizing st with
  | nil => exact ⟨st, rfl⟩
  | cons e rest ih =>
    obtain ⟨key, values⟩ := e
    obtain ⟨st1, h1⟩ := setQueryParamsStep_isSome st key
      (hne (key, values) (List.mem_cons_self _ _))
    obtain ⟨st2, h2⟩ := ih st1 (fun e he => hne e (List.mem_cons_of_mem _ he))
    exact ⟨st2, by rw [setQueryParamsLoop, h1]; exact h2⟩

theorem setQueryParamsLoop_values_ne_nil (entries : List (Str × List Str)) (st st2 : ParseState)
    (h : setQueryParamsLoop st entries = some st2) : ∀ e ∈ entries, e.2 ≠ [] := by
  induction entries generalizing st with
  | nil => intro e he; cases he
  | cons e rest ih =>
    obtain ⟨key, values⟩ := e
    obtain ⟨st1, h1, h2⟩ := setQueryParamsLoop_cons h
    obtain ⟨v, hv, -⟩ := setQueryParamsStep_eq h1
    intro e he
    rcases List.mem_cons.mp he with rfl | he
    · intro h0
      simp only at h0
      rw [h0] at hv
      cases hv
    · exact ih st1 h2 e he

theorem setQueryParamsLoop_field {α : Type} (proj : ParseState → α) (K : Str) (f : Str → α)
    (hstep : ∀ st st1 key values, setQueryParamsStep st key values = some st1 →
      ∃ v, values.getLast? = some v ∧ proj st1 = if key = K then f v else proj st)
    (entries : List (Str × List Str)) (st st2 : ParseState)
    (h : setQueryParamsLoop st entries = some st2) :
    ((∀ e ∈ entries, e.1 ≠ K) → proj st2 = proj st) ∧
    ((entries.map Prod.fst).Nodup → ∀ values v, (K, values) ∈ entries →
      values.getLast? = some v → proj st2 = f v) := by
  induction entries generalizing st with
  | nil =>
    simp only [setQueryParamsLoop, Option.some.injEq] at h
    subst h
    exact ⟨fun _ => rfl, fun _ values v hmem => by cases hmem⟩
  | cons e rest ih =>
    obtain ⟨key, values⟩ := e
    obtain ⟨st1, h1, h2⟩ := setQueryParamsLoop_cons h
    obtain ⟨v, hv, hproj⟩ := hstep st st1 key values h1
    obtain ⟨ihkeep, ihset⟩ := ih st1 h2
    constructor
    · intro habs
      have hk : key ≠ K := habs (key, values) (List.mem_cons_self _ _)
      rw [ihkeep (fun e he => habs e (List.mem_cons_of_mem _ he)), hproj, if_neg hk]
    · intro hnodup values1 v1 hmem hv1
      rw [List.map_cons, List.nodup_cons] at hnodup
      rcases List.mem_cons.mp hmem with heq | hmem
      · simp only [Prod.mk.injEq] at heq
        obtain ⟨hK, hvals⟩ := heq
        subst hK hvals
        have habs : ∀ e ∈ rest, e.1 ≠ K := by
          intro e he hek
          have hin : e.1 ∈ rest.map Prod.fst := List.mem_map_of_mem Prod.fst he
          rw [hek] at hin
          exact hnodup.1 hin
        rw [ihkeep habs, hproj, if_pos rfl]
        rw [hv] at hv1
        cases hv1
        rfl
      · exact ihset hnodup.2 values1 v1 hmem hv1

theorem setQueryParamsLoop_filterParams (entries : List (Str × List Str)) (st st2 : ParseState)
    (h : setQueryParamsLoop st entries = some st2) :
    st2.filterParams = st.filterParams ++
      (entries.filter (fun e => strings.Contains e.1 '.')).map (fun e =>
        { Attribute := ((e.1.splitOn '.')[0]?).getD [],
          Action := ((e.1.splitOn '.')[1]?).getD [],
          Value := (e.2.getLast?).getD [] }) := by
  induction entries generalizing st with
  | nil =>
    simp only [setQueryParamsLoop, Option.some.injEq] at h
    subst h
    simp
  | cons e rest ih =>
    obtain ⟨key, values⟩ := e
    obtain ⟨st1, h1, h2⟩ := setQueryParamsLoop_cons h
    obtain ⟨v, hv, -, -, -, -, hfp⟩ := setQueryParamsStep_eq h1
    rw [ih st1 h2, hfp]
    by_cases hdot : strings.Contains key '.' = true
    · simp [List.filter_cons, hdot, hv]
    · simp [List.filter_cons, hdot]



theorem SetQueryParams_eq_some {entries : List (Str × List Str)} {qp : QueryParams}
    (h : SetQueryParams entries = some qp) :
    ∃ st, setQueryParamsLoop
        { page := DefaultPage, sort := DefaultSort, filterParams := [] } entries = some st ∧
      qp = { Page := st.page, Sorting := st.sort, FilterParams := st.filterParams } := by
  unfold SetQueryParams at h
  cases hl : setQueryParamsLoop
      { page := DefaultPage, sort := DefaultSort, filterParams := [] } entries with
  | none => rw [hl] at h; cases h
  | some st =>
    rw [hl] at h
    simp only [Option.some.injEq] at h
    exact ⟨st, rfl, h.symm⟩

theorem SetQueryParams_isSome {entries : List (Str × List Str)}
    (hne : ∀ e ∈ entries, e.2 ≠ []) : ∃ qp, SetQueryParams entries = some qp := by
  obtain ⟨st, hst⟩ := setQueryParamsLoop_isSome entries
    { page := DefaultPage, sort := DefaultSort, filterParams := [] } hne
  exact ⟨_, by rw [SetQueryParams, hst]⟩

theorem SetQueryParams_values_ne_nil {entries : List (Str × List Str)} {qp : QueryParams}
    (h : SetQueryParams entries = some qp) : ∀ e ∈ entries, e.2 ≠ [] := by
  obtain ⟨st, hst, -⟩ := SetQueryParams_eq_some h
  exact setQueryParamsLoop_values_ne_nil _ _ _ hst

theorem SetQueryParams_Limit {entries : List (Str × List Str)} {qp : QueryParams}
    (h : SetQueryParams entries = some qp) :
    ((∀ e ∈ entries, e.1 ≠ PageLimit) → qp.Page.Limit = 10) ∧
    ((entries.map Prod.fst).Nodup → ∀ values v, (PageLimit, values) ∈ entries →
      values.getLast? = some v → qp.Page.Limit = (strconv.Atoi v).1) := by
  obtain ⟨st, hst, rfl⟩ := SetQueryParams_eq_some h
  exact setQueryParamsLoop_field (fun s => s.page.Limit) PageLimit (fun v => (strconv.Atoi v).1)
    (fun st st1 key values hs => by
      obtain ⟨v, hv, h1, -⟩ := setQueryParamsStep_eq hs
      exact ⟨v, hv, h1⟩) entries _ st hst

theorem SetQueryParams_Number {entries : List (Str × List Str)} {qp : QueryParams}
    (h : SetQueryParams entries = some qp) :
    ((∀ e ∈ entries, e.1 ≠ PageNumber) → qp.Page.Number = 1) ∧
    ((entries.map Prod.fst).Nodup → ∀ values v, (PageNumber, values) ∈ entries →
      values.getLast? = some v → qp.Page.Number = (strconv.Atoi v).1) := by
  obtain ⟨st, hst, rfl⟩ := SetQueryParams_eq_some h
  exact setQueryParamsLoop_field (fun s => s.page.Number) PageNumber
    (fun v => (strconv.Atoi v).1)
    (fun st st1 key values hs => by
      obtain ⟨v, hv, -, h1, -⟩ := setQueryParamsStep_eq hs
      exact ⟨v, hv, h1⟩) entries _ st hst

theorem SetQueryParams_By {entries : List (Str × List Str)} {qp : QueryParams}
    (h : SetQueryParams entries = some qp) :
    ((∀ e ∈ entries, e.1 ≠ SortBy) → qp.Sorting.By = "created_at".toList) ∧
    ((entries.map Prod.fst).Nodup → ∀ values v, (SortBy, values) ∈ entries →
      values.getLast? = some v → qp.Sorting.By = v) := by
  obtain ⟨st, hst, rfl⟩ := SetQueryParams_eq_some h
  exact setQueryParamsLoop_field (fun s => s.sort.By) SortBy (fun v => v)
    (fun st st1 key values hs => by
      obtain ⟨v, hv, -, -, h1, -⟩ := setQueryParamsStep_eq hs
      exact ⟨v, hv, h1⟩) entries _ st hst

theorem SetQueryParams_Direction {entries : List (Str × List Str)} {qp : QueryParams}
    (h : SetQueryParams entries = some qp) :
    ((∀ e ∈ entries, e.1 ≠ SortDirection) → qp.Sorting.Direction = Descending) ∧
    ((entries.map Prod.fst).Nodup → ∀ values v, (SortDirection, values) ∈ entries →
      values.getLast? = some v → qp.Sorting.Direction = v) := by
  obtain ⟨st, hst, rfl⟩ := SetQueryParams_eq_some h
  exact setQueryParamsLoop_field (fun s => s.sort.Direction) SortDirection (fun v => v)
    (fun st st1 key values hs => by
      obtain ⟨v, hv, -, -, -, h1, -⟩ := setQueryParamsStep_eq hs
      exact ⟨v, hv, h1⟩) entries _ st hst

theorem SetQueryParams_FilterParams {entries : List (Str × List Str)} {qp : QueryParams}
    (h : SetQueryParams entries = some qp) :
    qp.FilterParams =
      (entries.filter (fun e => strings.Contains e.1 '.')).map (fun e =>
        { Attribute := ((e.1.splitOn '.')[0]?).getD [],
          Action := ((e.1.splitOn '.')[1]?).getD [],
          Value := (e.2.getLast?).getD [] }) := by
  obtain ⟨st, hst, rfl⟩ := SetQueryParams_eq_some h
  simpa using setQueryParamsLoop_filterParams entries _ st hst

/-- The raw input `{"limit": ["9223372036854775808"]}` yields the limit `2^63 - 1`,
which is not the decimal value `2^63` of the value supplied. -/
theorem SetQueryParams_limit_out_of_range :
    SetQueryParams [("limit".toList, ["9223372036854775808".toList])] =
        some { Page := { Number := 1, Limit := 9223372036854775807 }, Sorting := DefaultSort,
               FilterParams := [] } ∧
      numeralValue "9223372036854775808".toList = 9223372036854775808 ∧
      SetQueryParams [("limit".toList, ["9223372036854775808".toList])] ≠
        some { Page := { Number := 1, Limit := 9223372036854775808 }, Sorting := DefaultSort,
               FilterParams := [] } := by
  decide

/-- C7, amended. For every raw input (distinct keys) whose value sequences are all
non-empty, `SetQueryParams` returns a `QueryParams` in which `Sort.By` and
`Sort.Direction` are the last value supplied for `sort_by` and `sort_direction`,
and `Page.Limit` and `Page.Number` are what `strconv.Atoi` returns for the last
value supplied for `limit` and `page`: when that value is a decimal numeral
(an optional sign and digits) it is the integer the numeral denotes, clamped
into the range of `int`, so the denoted integer itself whenever it lies in that
range (in particular `n` for the decimal numeral of an `n` below `2^63`) and
the nearest bound of `int` otherwise.  Every field whose key is absent has its
default: `Limit = 10`, `Number = 1`, `By = "created_at"`, `Direction = DESC`. -/
theorem SetQueryParams_page_and_sort (entries : List (Str × List Str))
    (hnodup : (entries.map Prod.fst).Nodup) (hne : ∀ e ∈ entries, e.2 ≠ []) :
    ∃ qp, SetQueryParams entries = some qp ∧
      (∀ values v, (PageLimit, values) ∈ entries → values.getLast? = some v →
        qp.Page.Limit = (strconv.Atoi v).1 ∧
        (isNumeric v = true →
          qp.Page.Limit = max minInt (min maxInt (numeralValue v)) ∧
          (minInt ≤ numeralValue v → numeralValue v ≤ maxInt →
            qp.Page.Limit = numeralValue v)) ∧
        ∀ n : Nat, n < 2 ^ 63 → v = (Nat.repr n).toList → qp.Page.Limit = n) ∧
      (∀ values v, (PageNumber, values) ∈ entries → values.getLast? = some v →
        qp.Page.Number = (strconv.Atoi v).1 ∧
        (isNumeric v = true →
          qp.Page.Number = max minInt (min maxInt (numeralValue v)) ∧
          (minInt ≤ numeralValue v → numeralValue v ≤ maxInt →
            qp.Page.Number = numeralValue v)) ∧
        ∀ n : Nat, n < 2 ^ 63 → v = (Nat.repr n).toList → qp.Page.Number = n) ∧
      (∀ values v, (SortBy, values) ∈ entries → values.getLast? = some v →
        qp.Sorting.By = v) ∧
      (∀ values v, (SortDirection, values) ∈ entries → values.getLast? = some v →
        qp.Sorting.Direction = v) ∧
      ((∀ e ∈ entries, e.1 ≠ PageLimit) → qp.Page.Limit = 10) ∧
      ((∀ e ∈ entries, e.1 ≠ PageNumber) → qp.Page.Number = 1) ∧
      ((∀ e ∈ entries, e.1 ≠ SortBy) → qp.Sorting.By = "created_at".toList) ∧
      ((∀ e ∈ entries, e.1 ≠ SortDirection) → qp.Sorting.Direction = Descending) := by
  obtain ⟨qp, hqp⟩ := SetQueryParams_isSome hne
  have key : ∀ (x : Int) (v : Str), x = (strconv.Atoi v).1 →
      x = (strconv.Atoi v).1 ∧
      (isNumeric v = true →
        x = max minInt (min maxInt (numeralValue v)) ∧
        (minInt ≤ numeralValue v → numeralValue v ≤ maxInt → x = numeralValue v)) ∧
      ∀ n : Nat, n < 2 ^ 63 → v = (Nat.repr n).toList → x = n := by
    intro x v hx
    refine ⟨hx, ?_, ?_⟩
    · intro hnum
      have hc : x = max minInt (min maxInt (numeralValue v)) := by
        rw [hx, (strconv.Atoi_numeric v hnum).1]
      refine ⟨hc, ?_⟩
      intro h1 h2
      rw [hc, min_eq_right h2, max_eq_right h1]
    · intro n hn hvn
      rw [hx, hvn, strconv.Atoi_repr n hn]
  refine ⟨qp, hqp, ?_, ?_, ?_, ?_, (SetQueryParams_Limit hqp).1, (SetQueryParams_Number hqp).1,
    (SetQueryParams_By hqp).1, (SetQueryParams_Direction hqp).1⟩
  · intro values v hmem hv
    exact key _ v ((SetQueryParams_Limit hqp).2 hnodup values v hmem hv)
  · intro values v hmem hv
    exact key _ v ((SetQueryParams_Number hqp).2 hnodup values v hmem hv)
  · exact (SetQueryParams_By hqp).2 hnodup
  · exact (SetQueryParams_Direction hqp).2 hnodup

/-- The example of the specification for C7, and the request `page=-3&limit=+07`. -/
theorem SetQueryParams_page_and_sort_witness :
    (∃ qp, SetQueryParams specExample = some qp ∧
      qp.Page.Limit = 20 ∧ qp.Page.Number = 2 ∧ qp.Sorting.By = "name".toList ∧
      qp.Sorting.Direction = Descending) ∧
    (∃ qp, SetQueryParams signedExample = some qp ∧
      qp.Page.Number = -3 ∧ qp.Page.Limit = 7) := by
  constructor
  · obtain ⟨qp, hqp, hl, hn, hb, -, -, -, -, hd⟩ :=
      SetQueryParams_page_and_sort specExample (by decide) (by decide)
    refine ⟨qp, hqp, ?_, ?_, ?_, ?_⟩
    · exact ((hl ["20".toList] "20".toList (by decide) rfl).2.2 20 (by norm_num) (by decide))
    · exact ((hn ["2".toList] "2".toList (by decide) rfl).2.2 2 (by norm_num) (by decide))
    · exact hb ["name".toList] "name".toList (by decide) rfl
    · exact hd (by decide)
  · obtain ⟨qp, hqp, hl, hn, -⟩ :=
      SetQueryParams_page_and_sort signedExample (by decide) (by decide)
    refine ⟨qp, hqp, ?_, ?_⟩
    · have h := ((hn ["-3".toList] "-3".toList (by decide) rfl).2.1 (by decide)).2
        (by decide) (by decide)
      rw [h]
      decide
    · have h := ((hl ["+07".toList] "+07".toList (by decide) rfl).2.1 (by decide)).2
        (by decide) (by decide)
      rw [h]
      decide

/-- C8. For every raw input whose value sequences are all non-empty, the
`FilterParams` returned by `SetQueryParams` hold exactly one `FilterParam` for
each key that contains a dot, in visiting order, with `Attribute` the first and
`Action` the second dot-separated component of the key and `Value` the last
value supplied for it; keys without a dot contribute nothing, so there are as
many `FilterParams` as dotted keys. -/
theorem SetQueryParams_filters (entries : List (Str × List Str))
    (hne : ∀ e ∈ entries, e.2 ≠ []) :
    ∃ qp, SetQueryParams entries = some qp ∧
      qp.FilterParams =
        (entries.filter (fun e => decide ('.' ∈ e.1))).map (fun e =>
          { Attribute := ((e.1.splitOn '.')[0]?).getD [],
            Action := ((e.1.splitOn '.')[1]?).getD [],
            Value := (e.2.getLast?).getD [] }) ∧
      qp.FilterParams.length = (entries.filter (fun e => decide ('.' ∈ e.1))).length := by
  obtain ⟨qp, hqp⟩ := SetQueryParams_isSome hne
  have hf := SetQueryParams_FilterParams hqp
  have hfun : (fun e : Str × List Str => strings.Contains e.1 '.') =
      (fun e => decide ('.' ∈ e.1)) := by
    funext e
    simp [strings.Contains]
  rw [hfun] at hf
  exact ⟨qp, hqp, hf, by rw [hf, List.length_map]⟩

/-- The example of the specification for C8. -/
theorem SetQueryParams_filters_witness :
    ∃ qp, SetQueryParams specExample = some qp ∧
      qp.FilterParams =
        [{ Attribute := "name".toList, Action := "like".toList, Value := "bon".toList }] := by
  obtain ⟨qp, hqp, hf, -⟩ := SetQueryParams_filters specExample (by decide)
  exact ⟨qp, hqp, by rw [hf]; decide⟩


/-- The raw input `{"limit": ["abc"]}` yields `Page{Number:1, Limit:0}`: the
non-numeric limit is not ignored, the default 10 is overwritten with 0. -/
theorem SetQueryParams_limit_abc :
    SetQueryParams [("limit".toList, ["abc".toList])] =
        some { Page := { Number := 1, Limit := 0 }, Sorting := DefaultSort, FilterParams := [] } ∧
      SetQueryParams [("limit".toList, ["abc".toList])] ≠
        some { Page := { Number := 1, Limit := 10 }, Sorting := DefaultSort,
               FilterParams := [] } := by
  decide

/-- C6, amended. For every raw input (distinct keys, no empty value sequence),
`SetQueryParams` returns a result without surfacing an error, and a non-numeric
last value `v` for the key `limit` (respectively `page`) is not ignored:
`strconv.Atoi` fails on `v` and `Page.Limit` (respectively `Page.Number`) is
overwritten with the value `Atoi` returns next to its error.  That value is 0,
the largest `int` or the smallest `int`, and it is 0 whenever `v` has at most 19
characters. -/
theorem SetQueryParams_non_numeric (entries : List (Str × List Str))
    (hnodup : (entries.map Prod.fst).Nodup) (hne : ∀ e ∈ entries, e.2 ≠ []) :
    ∃ qp, SetQueryParams entries = some qp ∧
      (∀ values v, (PageLimit, values) ∈ entries → values.getLast? = some v →
        isNumeric v = false →
          (strconv.Atoi v).2 ≠ none ∧ qp.Page.Limit = (strconv.Atoi v).1 ∧
          (qp.Page.Limit = 0 ∨ qp.Page.Limit = maxInt ∨ qp.Page.Limit = minInt) ∧
          (v.length ≤ 19 → qp.Page.Limit = 0)) ∧
      (∀ values v, (PageNumber, values) ∈ entries → values.getLast? = some v →
        isNumeric v = false →
          (strconv.Atoi v).2 ≠ none ∧ qp.Page.Number = (strconv.Atoi v).1 ∧
          (qp.Page.Number = 0 ∨ qp.Page.Number = maxInt ∨ qp.Page.Number = minInt) ∧
          (v.length ≤ 19 → qp.Page.Number = 0)) := by
  obtain ⟨qp, hqp⟩ := SetQueryParams_isSome hne
  have key : ∀ (x : Int) (v : Str), x = (strconv.Atoi v).1 → isNumeric v = false →
      (strconv.Atoi v).2 ≠ none ∧ x = (strconv.Atoi v).1 ∧
        (x = 0 ∨ x = maxInt ∨ x = minInt) ∧ (v.length ≤ 19 → x = 0) := by
    intro x v hx hnum
    refine ⟨?_, hx, ?_, ?_⟩
    · rcases strconv.Atoi_not_numeric v hnum with h | h | h <;> rw [h] <;> simp
    · rcases strconv.Atoi_not_numeric v hnum with h | h | h <;> rw [hx, h] <;> simp
    · intro hlen
      rw [hx, strconv.Atoi_not_numeric_short v hnum hlen]
  refine ⟨qp, hqp, ?_, ?_⟩
  · intro values v hmem hv hnum
    exact key _ v ((SetQueryParams_Limit hqp).2 hnodup values v hmem hv) hnum
  · intro values v hmem hv hnum
    exact key _ v ((SetQueryParams_Number hqp).2 hnodup values v hmem hv) hnum

/-- The raw input `limit=abc` sets the limit to 0. -/
theorem SetQueryParams_non_numeric_witness :
    ∃ qp, SetQueryParams [("limit".toList, ["abc".toList])] = some qp ∧ qp.Page.Limit = 0 := by
  obtain ⟨qp, hqp, hl, -⟩ :=
    SetQueryParams_non_numeric [("limit".toList, ["abc".toList])] (by decide) (by decide)
  exact ⟨qp, hqp, (hl ["abc".toList] "abc".toList (by decide) rfl (by decide)).2.2.2 (by decide)⟩

/-- Two visits of the same map, one in the reverse order of the other, give
different `QueryParams`: the two `FilterParams` come out in opposite orders. -/
theorem SetQueryParams_order_dependent :
    List.Perm twoFilters twoFilters.reverse ∧ (twoFilters.map Prod.fst).Nodup ∧
      SetQueryParams twoFilters ≠ SetQueryParams twoFilters.reverse := by
  refine ⟨(List.reverse_perm _).symm, by decide, by decide⟩

theorem setQueryParamsLoop_field_perm {α : Type} (proj : ParseState → α) (K : Str) (f : Str → α)
    (hstep : ∀ st st1 key values, setQueryParamsStep st key values = some st1 →
      ∃ v, values.getLast? = some v ∧ proj st1 = if key = K then f v else proj st)
    (e1 e2 : List (Str × List Str)) (hperm : e1.Perm e2) (hnodup : (e1.map Prod.fst).Nodup)
    (st s1 s2 : ParseState) (h1 : setQueryParamsLoop st e1 = some s1)
    (h2 : setQueryParamsLoop st e2 = some s2) : proj s1 = proj s2 := by
  have hnodup2 : (e2.map Prod.fst).Nodup := (hperm.map Prod.fst).nodup_iff.mp hnodup
  obtain ⟨k1, s1set⟩ := setQueryParamsLoop_field proj K f hstep e1 st s1 h1
  obtain ⟨k2, s2set⟩ := setQueryParamsLoop_field proj K f hstep e2 st s2 h2
  by_cases hpres : ∃ e ∈ e1, e.1 = K
  · obtain ⟨e, he, heK⟩ := hpres
    obtain ⟨key, values⟩ := e
    simp only at heK
    subst heK
    have hvne := setQueryParamsLoop_values_ne_nil e1 st s1 h1 _ he
    obtain ⟨v, hv⟩ : ∃ v, values.getLast? = some v := by
      cases hl : values.getLast? with
      | none => simp at hl; exact absurd hl hvne
      | some v => exact ⟨v, rfl⟩
    rw [s1set hnodup values v he hv, s2set hnodup2 values v (hperm.mem_iff.mp he) hv]
  · have habs1 : ∀ e ∈ e1, e.1 ≠ K := fun e he hk => hpres ⟨e, he, hk⟩
    have habs2 : ∀ e ∈ e2, e.1 ≠ K := fun e he => habs1 e (hperm.mem_iff.mpr he)
    rw [k1 habs1, k2 habs2]

/-- C9, amended. Parsing the same raw input (distinct keys) in two visiting
orders either panics both times or yields two `QueryParams` with the same
`Page`, the same `Sort` and the same `FilterParams` up to their order; the two
results are equal when the input has at most one dotted key. -/
theorem SetQueryParams_perm (e1 e2 : List (Str × List Str)) (hperm : e1.Perm e2)
    (hnodup : (e1.map Prod.fst).Nodup) :
    (SetQueryParams e1 = none ∧ SetQueryParams e2 = none) ∨
    ∃ q1 q2, SetQueryParams e1 = some q1 ∧ SetQueryParams e2 = some q2 ∧
      q1.Page = q2.Page ∧ q1.Sorting = q2.Sorting ∧ q1.FilterParams.Perm q2.FilterParams ∧
      ((e1.filter (fun e => decide ('.' ∈ e.1))).length ≤ 1 → q1 = q2) := by
  by_cases hne : ∀ e ∈ e1, e.2 ≠ []
  · right
    have hne2 : ∀ e ∈ e2, e.2 ≠ [] := fun e he => hne e (hperm.mem_iff.mpr he)
    obtain ⟨q1, hq1⟩ := SetQueryParams_isSome hne
    obtain ⟨q2, hq2⟩ := SetQueryParams_isSome hne2
    have hf1 := SetQueryParams_FilterParams hq1
    have hf2 := SetQueryParams_FilterParams hq2
    obtain ⟨s1, hs1, hq1eq⟩ := SetQueryParams_eq_some hq1
    obtain ⟨s2, hs2, hq2eq⟩ := SetQueryParams_eq_some hq2
    have hLimit : s1.page.Limit = s2.page.Limit :=
      setQueryParamsLoop_field_perm (fun s => s.page.Limit) PageLimit
        (fun v => (strconv.Atoi v).1)
        (fun st st1 key values hs => by
          obtain ⟨v, hv, h1, -⟩ := setQueryParamsStep_eq hs
          exact ⟨v, hv, h1⟩) e1 e2 hperm hnodup _ s1 s2 hs1 hs2
    have hNumber : s1.page.Number = s2.page.Number :=
      setQueryParamsLoop_field_perm (fun s => s.page.Number) PageNumber
        (fun v => (strconv.Atoi v).1)
        (fun st st1 key values hs => by
          obtain ⟨v, hv, -, h1, -⟩ := setQueryParamsStep_eq hs
          exact ⟨v, hv, h1⟩) e1 e2 hperm hnodup _ s1 s2 hs1 hs2
    have hBy : s1.sort.By = s2.sort.By :=
      setQueryParamsLoop_field_perm (fun s => s.sort.By) SortBy (fun v => v)
        (fun st st1 key values hs => by
          obtain ⟨v, hv, -, -, h1, -⟩ := setQueryParamsStep_eq hs
          exact ⟨v, hv, h1⟩) e1 e2 hperm hnodup _ s1 s2 hs1 hs2
    have hDir : s1.sort.Direction = s2.sort.Direction :=
      setQueryParamsLoop_field_perm (fun s => s.sort.Direction) SortDirection (fun v => v)
        (fun st st1 key values hs => by
          obtain ⟨v, hv, -, -, -, h1, -⟩ := setQueryParamsStep_eq hs
          exact ⟨v, hv, h1⟩) e1 e2 hperm hnodup _ s1 s2 hs1 hs2
    have hPage : q1.Page = q2.Page := by
      rw [hq1eq, hq2eq]
      cases hp1 : s1.page
      cases hp2 : s2.page
      rw [hp1, hp2] at hLimit hNumber
      simp only at hLimit hNumber
      simp [hLimit, hNumber]
    have hSort : q1.Sorting = q2.Sorting := by
      rw [hq1eq, hq2eq]
      cases hp1 : s1.sort
      cases hp2 : s2.sort
      rw [hp1, hp2] at hBy hDir
      simp only at hBy hDir
      simp [hBy, hDir]
    have hfun : (fun e : Str × List Str => strings.Contains e.1 '.') =
        (fun e => decide ('.' ∈ e.1)) := by
      funext e
      simp [strings.Contains]
    rw [hfun] at hf1 hf2
    have hFP : q1.FilterParams.Perm q2.FilterParams := by
      rw [hf1, hf2]
      exact (hperm.filter _).map _
    refine ⟨q1, q2, hq1, hq2, hPage, hSort, hFP, ?_⟩
    intro hlen
    have hlen1 : q1.FilterParams.length ≤ 1 := by rw [hf1, List.length_map]; exact hlen
    have hFPeq : q1.FilterParams = q2.FilterParams := by
      have hl := hFP.length_eq
      cases hx : q1.FilterParams with
      | nil =>
        rw [hx] at hFP
        exact (List.perm_nil.mp hFP.symm).symm ▸ rfl
      | cons a l =>
        rw [hx] at hlen1 hFP
        have hl0 : l = [] := by
          cases l with
          | nil => rfl
          | cons b l => simp at hlen1
        subst hl0
        exact (List.perm_singleton.mp hFP.symm).symm
    cases q1
    cases q2
    simp only at hPage hSort hFPeq
    simp [hPage, hSort, hFPeq]
  · left
    constructor
    · cases h : SetQueryParams e1 with
      | none => rfl
      | some q => exact absurd (SetQueryParams_values_ne_nil h) hne
    · cases h : SetQueryParams e2 with
      | none => rfl
      | some q =>
        exact absurd (fun e he => SetQueryParams_values_ne_nil h e (hperm.mem_iff.mp he)) hne

/-- The two visiting orders of `twoFilters` agree up to the order of the filters. -/
theorem SetQueryParams_perm_witness :
    ∃ q1 q2, SetQueryParams twoFilters = some q1 ∧ SetQueryParams twoFilters.reverse = some q2 ∧
      q1.Page = q2.Page ∧ q1.Sorting = q2.Sorting ∧ q1.FilterParams.Perm q2.FilterParams := by
  rcases SetQueryParams_perm twoFilters twoFilters.reverse (List.reverse_perm _).symm
    (by decide) with ⟨h, -⟩ | ⟨q1, q2, h1, h2, hp, hs, hf, -⟩
  · exact absurd h (by decide)
  · exact ⟨q1, q2, h1, h2, hp, hs, hf⟩

/-! ## query_params.go: Paginate -/

theorem wrapInt_of_range (x : Int) (h1 : minInt ≤ x) (h2 : x ≤ maxInt) : wrapInt x = x := by
  simp only [wrapInt, minInt, maxInt, intSize] at *
  have : (x + 2 ^ (64 - 1)) % 2 ^ 64 = x + 2 ^ (64 - 1) :=
    Int.emod_eq_of_lt (by omega) (by omega)
  rw [this]
  omega

theorem wrapInt_mul_wrapInt (a b : Int) : wrapInt (wrapInt a * b) = wrapInt (a * b) := by
  simp only [wrapInt, intSize]
  have h : ((a + 2 ^ (64 - 1)) % 2 ^ 64 - 2 ^ (64 - 1)) * b + 2 ^ (64 - 1) =
      (a * b + 2 ^ (64 - 1)) + 2 ^ 64 * (-((a + 2 ^ (64 - 1)) / 2 ^ 64) * b) := by
    have hm := Int.emod_add_ediv (a + 2 ^ (64 - 1)) (2 ^ 64)
    have e : (a + 2 ^ (64 - 1)) % 2 ^ 64 =
        (a + 2 ^ (64 - 1)) - 2 ^ 64 * ((a + 2 ^ (64 - 1)) / 2 ^ 64) := by linarith
    rw [e]
    ring
  rw [h, Int.add_mul_emod_self_left]

theorem Paginate_eq_wrap (queryParams : QueryParams) (dbQuery : gorm.DB) :
    queryParams.Paginate dbQuery =
      (dbQuery.Offset (wrapInt ((queryParams.Page.Number - 1) * queryParams.Page.Limit))).Limit
        queryParams.Page.Limit := by
  simp only [QueryParams.Paginate, wrapInt_mul_wrapInt]

/-- The request `page=4611686018427387905&limit=4` makes `Paginate` apply the
offset 0, whereas `(Page.Number - 1) * Page.Limit` is `2^64`. -/
theorem Paginate_offset_overflow :
    SetQueryParams [("page".toList, ["4611686018427387905".toList]),
        ("limit".toList, ["4".toList])] = some hugePage ∧
    (hugePage.Paginate { table := "users".toList, clauses := [] }).clauses =
        [gorm.Clause.Offset 0, gorm.Clause.Limit 4] ∧
      (hugePage.Page.Number - 1) * hugePage.Page.Limit = 18446744073709551616 ∧
      hugePage.Paginate { table := "users".toList, clauses := [] } ≠
        (gorm.DB.Offset { table := "users".toList, clauses := [] }
          ((hugePage.Page.Number - 1) * hugePage.Page.Limit)).Limit hugePage.Page.Limit := by
  decide

/-- C10, amended. For every `QueryParams`, the modifier returned by `Paginate`
applies the limit `Page.Limit` and the offset `(Page.Number - 1) * Page.Limit`
computed in Go's wrapping 64-bit `int` arithmetic; the offset is the exact
product whenever that product lies in the range of `int`. -/
theorem Paginate_offset_limit (queryParams : QueryParams) (dbQuery : gorm.DB) :
    queryParams.Paginate dbQuery =
        (dbQuery.Offset (wrapInt ((queryParams.Page.Number - 1) * queryParams.Page.Limit))).Limit
          queryParams.Page.Limit ∧
      (minInt ≤ (queryParams.Page.Number - 1) * queryParams.Page.Limit →
        (queryParams.Page.Number - 1) * queryParams.Page.Limit ≤ maxInt →
        queryParams.Paginate dbQuery =
          (dbQuery.Offset ((queryParams.Page.Number - 1) * queryParams.Page.Limit)).Limit
            queryParams.Page.Limit) := by
  refine ⟨Paginate_eq_wrap queryParams dbQuery, ?_⟩
  intro h1 h2
  rw [Paginate_eq_wrap, wrapInt_of_range _ h1 h2]

/-- The example of the specification for C10: page 3 of 10 starts at offset 20. -/
theorem Paginate_offset_limit_witness :
    ({ Page := { Number := 3, Limit := 10 }, Sorting := DefaultSort, FilterParams := [] } :
        QueryParams).Paginate { table := "users".toList, clauses := [] } =
      { table := "users".toList, clauses := [gorm.Clause.Offset 20, gorm.Clause.Limit 10] } :=
  (Paginate_offset_limit
    { Page := { Number := 3, Limit := 10 }, Sorting := DefaultSort, FilterParams := [] }
    { table := "users".toList, clauses := [] }).2 (by decide) (by decide)


/-! ## query_params.go: FilterByParams and SortByDirection -/

theorem filterByParamsStep_cases (tableName : Str) (dbQuery : gorm.DB) (fp : FilterParam) :
    (fp.Action = Equals → filterByParamsStep tableName dbQuery fp =
      dbQuery.Where ((if tableName = [] then fp.Attribute
        else tableName ++ ".".toList ++ fp.Attribute) ++ " = ?".toList)
        [gorm.Arg.str fp.Value]) ∧
    (fp.Action = Like → filterByParamsStep tableName dbQuery fp =
      dbQuery.Where ((if tableName = [] then fp.Attribute
        else tableName ++ ".".toList ++ fp.Attribute) ++ " LIKE ?".toList)
        [gorm.Arg.str ("%".toList ++ fp.Value ++ "%".toList)]) ∧
    (fp.Action = In → filterByParamsStep tableName dbQuery fp =
      dbQuery.Where ((if tableName = [] then fp.Attribute
        else tableName ++ ".".toList ++ fp.Attribute) ++ " IN (?)".toList)
        [gorm.Arg.strs (fp.Value.splitOn ',')]) ∧
    (fp.Action = GreaterThan → filterByParamsStep tableName dbQuery fp =
      dbQuery.Where ((if tableName = [] then fp.Attribute
        else tableName ++ ".".toList ++ fp.Attribute) ++ " > ?".toList)
        [gorm.Arg.str fp.Value]) ∧
    (fp.Action = GreaterThanEqual → filterByParamsStep tableName dbQuery fp =
      dbQuery.Where ((if tableName = [] then fp.Attribute
        else tableName ++ ".".toList ++ fp.Attribute) ++ " >= ?".toList)
        [gorm.Arg.str fp.Value]) ∧
    (fp.Action = LessThan → filterByParamsStep tableName dbQuery fp =
      dbQuery.Where ((if tableName = [] then fp.Attribute
        else tableName ++ ".".toList ++ fp.Attribute) ++ " < ?".toList)
        [gorm.Arg.str fp.Value]) ∧
    (fp.Action = LessThanEqual → filterByParamsStep tableName dbQuery fp =
      dbQuery.Where ((if tableName = [] then fp.Attribute
        else tableName ++ ".".toList ++ fp.Attribute) ++ " <= ?".toList)
        [gorm.Arg.str fp.Value]) ∧
    (fp.Action ∉ [Equals, Like, In, GreaterThan, GreaterThanEqual, LessThan, LessThanEqual] →
      filterByParamsStep tableName dbQuery fp = dbQuery) := by
  have hattr : (if (!IsEmpty tableName) = true then tableName ++ ".".toList ++ fp.Attribute
      else fp.Attribute) =
      (if tableName = [] then fp.Attribute else tableName ++ ".".toList ++ fp.Attribute) := by
    cases tableName <;> simp [IsEmpty]
  unfold filterByParamsStep
  simp only [hattr, strings.Split_eq_splitOn]
  refine ⟨?_, ?_, ?_, ?_, ?_, ?_, ?_, ?_⟩
  · intro h; rw [if_pos h]
  · intro h; rw [h, if_neg (by decide), if_pos rfl]
  · intro h; rw [h, if_neg (by decide), if_neg (by decide), if_pos rfl]
  · intro h; rw [h, if_neg (by decide), if_neg (by decide), if_neg (by decide), if_pos rfl]
  · intro h
    rw [h, if_neg (by decide), if_neg (by decide), if_neg (by decide), if_neg (by decide),
      if_pos rfl]
  · intro h
    rw [h, if_neg (by decide), if_neg (by decide), if_neg (by decide), if_neg (by decide),
      if_neg (by decide), if_pos rfl]
  · intro h
    rw [h, if_neg (by decide), if_neg (by decide), if_neg (by decide), if_neg (by decide),
      if_neg (by decide), if_neg (by decide), if_pos rfl]
  · intro h
    simp only [List.mem_cons, List.mem_singleton, not_or, List.not_mem_nil, or_false] at h
    obtain ⟨h1, h2, h3, h4, h5, h6, h7⟩ := h
    rw [if_neg h1, if_neg h2, if_neg h3, if_neg h4, if_neg h5, if_neg h6, if_neg h7]


theorem foldl_filterByParamsStep_forall₂ (tableName : Str) (R : FilterParam → gorm.Clause → Prop)
    (hR : ∀ (db : gorm.DB) (fp : FilterParam),
      fp.Action ∈ [Equals, Like, In, GreaterThan, GreaterThanEqual, LessThan, LessThanEqual] →
      ∃ c, filterByParamsStep tableName db fp =
        { table := db.table, clauses := db.clauses ++ [c] } ∧ R fp c)
    (fps : List FilterParam) (db : gorm.DB)
    (h : ∀ fp ∈ fps, fp.Action ∈
      [Equals, Like, In, GreaterThan, GreaterThanEqual, LessThan, LessThanEqual]) :
    ∃ predicates, fps.foldl (filterByParamsStep tableName) db =
        { table := db.table, clauses := db.clauses ++ predicates } ∧
      predicates.length = fps.length ∧ List.Forall₂ R fps predicates := by
  induction fps generalizing db with
  | nil => exact ⟨[], by simp, rfl, List.Forall₂.nil⟩
  | cons fp rest ih =>
    obtain ⟨c, hc, hRc⟩ := hR db fp (h fp (List.mem_cons_self _ _))
    obtain ⟨predicates, hp, hl, hF⟩ := ih { table := db.table, clauses := db.clauses ++ [c] }
      (fun fp1 h1 => h fp1 (List.mem_cons_of_mem _ h1))
    refine ⟨c :: predicates, ?_, by simp [hl], List.Forall₂.cons hRc hF⟩
    rw [List.foldl_cons, hc, hp]
    simp

/-- C11. For every table-name prefix and every sequence of `FilterParams` whose
actions are all among the seven enumerated kinds, the modifier returned by
`FilterByParams` keeps the table and adds exactly one predicate per
`FilterParam`, in sequence order (the ORM combines the predicates with AND),
of the shape: equals gives `attr = ?` with the value; like gives `attr LIKE ?`
with `%value%`; in gives `attr IN (?)` with the value split on commas; the four
comparisons give `attr > ?`, `attr >= ?`, `attr < ?`, `attr <= ?` with the value;
`attr` is `prefix.attribute` for a non-empty prefix and the bare attribute
otherwise. -/
theorem FilterByParams_predicates (queryParams : QueryParams) (tableName : Str)
    (dbQuery : gorm.DB)
    (hactions : ∀ fp ∈ queryParams.FilterParams, fp.Action ∈
      [Equals, Like, In, GreaterThan, GreaterThanEqual, LessThan, LessThanEqual]) :
    ∃ predicates : List gorm.Clause,
      queryParams.FilterByParams tableName dbQuery =
        { table := dbQuery.table, clauses := dbQuery.clauses ++ predicates } ∧
      predicates.length = queryParams.FilterParams.length ∧
      List.Forall₂ (fun fp predicate =>
        (fp.Action = Equals → predicate = gorm.Clause.Where
          ((if tableName = [] then fp.Attribute else tableName ++ ".".toList ++ fp.Attribute) ++
            " = ?".toList) [gorm.Arg.str fp.Value]) ∧
        (fp.Action = Like → predicate = gorm.Clause.Where
          ((if tableName = [] then fp.Attribute else tableName ++ ".".toList ++ fp.Attribute) ++
            " LIKE ?".toList) [gorm.Arg.str ("%".toList ++ fp.Value ++ "%".toList)]) ∧
        (fp.Action = In → predicate = gorm.Clause.Where
          ((if tableName = [] then fp.Attribute else tableName ++ ".".toList ++ fp.Attribute) ++
            " IN (?)".toList) [gorm.Arg.strs (fp.Value.splitOn ',')]) ∧
        (fp.Action = GreaterThan → predicate = gorm.Clause.Where
          ((if tableName = [] then fp.Attribute else tableName ++ ".".toList ++ fp.Attribute) ++
            " > ?".toList) [gorm.Arg.str fp.Value]) ∧
        (fp.Action = GreaterThanEqual → predicate = gorm.Clause.Where
          ((if tableName = [] then fp.Attribute else tableName ++ ".".toList ++ fp.Attribute) ++
            " >= ?".toList) [gorm.Arg.str fp.Value]) ∧
        (fp.Action = LessThan → predicate = gorm.Clause.Where
          ((if tableName = [] then fp.Attribute else tableName ++ ".".toList ++ fp.Attribute) ++
            " < ?".toList) [gorm.Arg.str fp.Value]) ∧
        (fp.Action = LessThanEqual → predicate = gorm.Clause.Where
          ((if tableName = [] then fp.Attribute else tableName ++ ".".toList ++ fp.Attribute) ++
            " <= ?".toList) [gorm.Arg.str fp.Value]))
        queryParams.FilterParams predicates := by
  show ∃ predicates, queryParams.FilterParams.foldl (filterByParamsStep tableName) dbQuery = _ ∧
    _ ∧ _
  refine foldl_filterByParamsStep_forall₂ tableName _ ?_ _ _ hactions
  intro db fp hmem
  obtain ⟨c1, c2, c3, c4, c5, c6, c7, -⟩ := filterByParamsStep_cases tableName db fp
  simp only [List.mem_cons, List.mem_singleton, List.not_mem_nil, or_false] at hmem
  rcases hmem with h | h | h | h | h | h | h
  · refine ⟨_, c1 h, ?_⟩
    beta_reduce
    refine ⟨?_, ?_, ?_, ?_, ?_, ?_, ?_⟩ <;> intro h2 <;>
      first | rfl | (rw [h] at h2; exact absurd h2 (by decide))
  · refine ⟨_, c2 h, ?_⟩
    beta_reduce
    refine ⟨?_, ?_, ?_, ?_, ?_, ?_, ?_⟩ <;> intro h2 <;>
      first | rfl | (rw [h] at h2; exact absurd h2 (by decide))
  · refine ⟨_, c3 h, ?_⟩
    beta_reduce
    refine ⟨?_, ?_, ?_, ?_, ?_, ?_, ?_⟩ <;> intro h2 <;>
      first | rfl | (rw [h] at h2; exact absurd h2 (by decide))
  · refine ⟨_, c4 h, ?_⟩
    beta_reduce
    refine ⟨?_, ?_, ?_, ?_, ?_, ?_, ?_⟩ <;> intro h2 <;>
      first | rfl | (rw [h] at h2; exact absurd h2 (by decide))
  · refine ⟨_, c5 h, ?_⟩
    beta_reduce
    refine ⟨?_, ?_, ?_, ?_, ?_, ?_, ?_⟩ <;> intro h2 <;>
      first | rfl | (rw [h] at h2; exact absurd h2 (by decide))
  · refine ⟨_, c6 h, ?_⟩
    beta_reduce
    refine ⟨?_, ?_, ?_, ?_, ?_, ?_, ?_⟩ <;> intro h2 <;>
      first | rfl | (rw [h] at h2; exact absurd h2 (by decide))
  · refine ⟨_, c7 h, ?_⟩
    beta_reduce
    refine ⟨?_, ?_, ?_, ?_, ?_, ?_, ?_⟩ <;> intro h2 <;>
      first | rfl | (rw [h] at h2; exact absurd h2 (by decide))


/-- Two filters on the table `users` give two predicates. -/
theorem FilterByParams_predicates_witness :
    ∃ predicates : List gorm.Clause,
      filterExample.FilterByParams "users".toList (gorm.Table "users".toList) =
        { table := "users".toList, clauses := predicates } ∧
      predicates.length = 2 := by
  obtain ⟨predicates, hp, hl, -⟩ :=
    FilterByParams_predicates filterExample "users".toList (gorm.Table "users".toList)
      (by decide)
  exact ⟨predicates, by simpa [gorm.Table] using hp, hl⟩

theorem foldl_filterByParamsStep_filter (tableName : Str) (fps : List FilterParam)
    (db : gorm.DB) :
    fps.foldl (filterByParamsStep tableName) db =
      (fps.filter (fun fp => decide (fp.Action ∈
        [Equals, Like, In, GreaterThan, GreaterThanEqual, LessThan, LessThanEqual]))).foldl
        (filterByParamsStep tableName) db := by
  induction fps generalizing db with
  | nil => rfl
  | cons fp rest ih =>
    by_cases h : fp.Action ∈
        [Equals, Like, In, GreaterThan, GreaterThanEqual, LessThan, LessThanEqual]
    · rw [List.filter_cons_of_pos (by simpa using h), List.foldl_cons, List.foldl_cons, ih]
    · rw [List.filter_cons_of_neg (by simpa using h), List.foldl_cons,
        (filterByParamsStep_cases tableName db fp).2.2.2.2.2.2.2 h, ih]

/-- C15. For every sequence of `FilterParams`, the query `FilterByParams`
produces equals the query produced from the same sequence without the
`FilterParams` whose action is not one of the seven enumerated kinds, and such a
`FilterParam` on its own adds no predicate: the query is returned as it was. -/
theorem FilterByParams_drops_unknown (queryParams : QueryParams) (tableName : Str)
    (dbQuery : gorm.DB) :
    queryParams.FilterByParams tableName dbQuery =
        QueryParams.FilterByParams
          { queryParams with FilterParams := queryParams.FilterParams.filter (fun fp =>
              decide (fp.Action ∈
                [Equals, Like, In, GreaterThan, GreaterThanEqual, LessThan, LessThanEqual])) }
          tableName dbQuery ∧
      (∀ fp : FilterParam,
        fp.Action ∉ [Equals, Like, In, GreaterThan, GreaterThanEqual, LessThan, LessThanEqual] →
        QueryParams.FilterByParams { queryParams with FilterParams := [fp] } tableName dbQuery =
          dbQuery) := by
  refine ⟨foldl_filterByParamsStep_filter tableName queryParams.FilterParams dbQuery, ?_⟩
  intro fp h
  exact (filterByParamsStep_cases tableName dbQuery fp).2.2.2.2.2.2.2 h

/-- A filter with the action `between` leaves the query as it was. -/
theorem FilterByParams_drops_unknown_witness :
    QueryParams.FilterByParams
        { filterExample with FilterParams :=
            [{ Attribute := "age".toList, Action := "between".toList, Value := "1".toList }] }
        "users".toList (gorm.Table "users".toList) = gorm.Table "users".toList :=
  (FilterByParams_drops_unknown filterExample "users".toList (gorm.Table "users".toList)).2
    { Attribute := "age".toList, Action := "between".toList, Value := "1".toList } (by decide)

/-- C16. For every `QueryParams`, the modifier returned by `SortByDirection`
appends exactly one ordering clause, whose text is `Sort.By`, one space, then
`Sort.Direction`, both verbatim; the default `Sort` gives `created_at DESC`. -/
theorem SortByDirection_clause (queryParams : QueryParams) (dbQuery : gorm.DB) :
    queryParams.SortByDirection dbQuery =
        { table := dbQuery.table,
          clauses := dbQuery.clauses ++
            [gorm.Clause.Order
              (queryParams.Sorting.By ++ [' '] ++ queryParams.Sorting.Direction)] } ∧
      (queryParams.Sorting = DefaultSort →
        queryParams.SortByDirection dbQuery =
          { table := dbQuery.table,
            clauses := dbQuery.clauses ++ [gorm.Clause.Order "created_at DESC".toList] }) := by
  refine ⟨rfl, ?_⟩
  intro h
  simp only [QueryParams.SortByDirection, gorm.DB.Order, h]
  rfl

/-- The default sort orders by `created_at DESC`. -/
theorem SortByDirection_clause_witness :
    filterExample.SortByDirection (gorm.Table "users".toList) =
      { table := "users".toList, clauses := [gorm.Clause.Order "created_at DESC".toList] } :=
  (SortByDirection_clause filterExample (gorm.Table "users".toList)).2 rfl

/-- C12. With a nil `QueryParams`, `GetRecordsByQueryParams` runs `Find` on the
plain table query, which has no predicate, ordering, offset or limit, and
returns its rows, or nil and its error; `GetRecordCount` runs `Count` on the
same plain table query and returns its count, or 0 and its error. -/
theorem nil_QueryParams_full_table {Model Value : Type} (repo : CommonRepository Model Value) :
    repo.GetRecordsByQueryParams none =
        (if (repo.dbClient.Find { table := repo.tableName, clauses := [] }).2 ≠ none then
          ([], (repo.dbClient.Find { table := repo.tableName, clauses := [] }).2)
        else ((repo.dbClient.Find { table := repo.tableName, clauses := [] }).1, none)) ∧
      repo.GetRecordCount none =
        (if (repo.dbClient.Count { table := repo.tableName, clauses := [] }).2 ≠ none then
          (0, (repo.dbClient.Count { table := repo.tableName, clauses := [] }).2)
        else ((repo.dbClient.Count { table := repo.tableName, clauses := [] }).1, none)) := by
  constructor <;> rfl

/-- C13. An update that succeeds but affects zero rows: `UpdateRecordsByAttributes`
and `UpdateRecordByID` return no error, whereas `DeleteRecordsByAttributes` on
the same outcome returns `gorm.ErrRecordNotFound`. -/
theorem Update_zero_rows_no_error :
    (stubRepo none { Error := none, RowsAffected := 0 }).UpdateRecordsByAttributes
        [("city".toList, "dhaka".toList)] [("name".toList, "nafi".toList)] = none ∧
      (stubRepo none { Error := none, RowsAffected := 0 }).UpdateRecordByID
        "7".toList [("name".toList, "nafi".toList)] = none ∧
      (stubRepo none { Error := none, RowsAffected := 0 }).DeleteRecordsByAttributes
        [("city".toList, "dhaka".toList)] = some gorm.ErrRecordNotFound := by
  decide

/-- On the nil error `ParseDuplicateEntry` panics: it does not return
`(false, nil)`. -/
theorem ParseDuplicateEntry_nil_panics :
    ParseDuplicateEntry none = none ∧ ParseDuplicateEntry none ≠ some (false, []) := by
  decide

/-- C14, amended. On every non-nil error, one whose message is empty included,
`ParseDuplicateEntry` returns a result without panicking, and for an empty
message that result is `(false, nil)`. -/
theorem ParseDuplicateEntry_total_on_errors (e : GoError) :
    (∃ result, ParseDuplicateEntry (some e) = some result) ∧
      (e.Error = [] → ParseDuplicateEntry (some e) = some (false, [])) := by
  constructor
  · rcases ParseDuplicateEntry_cases e with h | ⟨tokens, h⟩
    · exact ⟨_, h⟩
    · exact ⟨_, h⟩
  · intro h
    exact ParseDuplicateEntry_find_nil (by rw [h]; rfl)

/-- An error with the empty message is not a duplicate-key error. -/
theorem ParseDuplicateEntry_total_on_errors_witness :
    ParseDuplicateEntry (some (GoError.other [])) = some (false, []) :=
  (ParseDuplicateEntry_total_on_errors (GoError.other [])).2 rfl


/-- C17. `SetQueryParams` returns a result exactly when every key maps to a
non-empty value sequence: the last-value lookup is out of range on an empty
sequence and only there, the lookup `searchKeys[1]` on a key that contains a dot
is always in range, and an input with a key mapped to an empty sequence makes
the function panic. -/
theorem SetQueryParams_total_iff (entries : List (Str × List Str)) :
    ((∃ qp, SetQueryParams entries = some qp) ↔ ∀ e ∈ entries, e.2 ≠ []) ∧
      (∀ (st : ParseState) (key : Str), setQueryParamsStep st key [] = none) ∧
      (∀ key : Str, strings.Contains key '.' = true →
        ∃ attr action rest, strings.Split key '.' = attr :: action :: rest) ∧
      ((∃ e ∈ entries, e.2 = []) → SetQueryParams entries = none) := by
  refine ⟨⟨?_, SetQueryParams_isSome⟩, ?_, ?_, ?_⟩
  · rintro ⟨qp, h⟩
    exact SetQueryParams_values_ne_nil h
  · intro st key
    rfl
  · intro key h
    exact strings.Split_two_of_Contains key '.' h
  · rintro ⟨e, he, h0⟩
    cases h : SetQueryParams entries with
    | none => rfl
    | some qp => exact absurd h0 (SetQueryParams_values_ne_nil h e he)

/-- The input `limit ↦ []` panics; the example of the specification does not. -/
theorem SetQueryParams_total_iff_witness :
    SetQueryParams [("limit".toList, [])] = none ∧
      ∃ qp, SetQueryParams specExample = some qp :=
  ⟨(SetQueryParams_total_iff [("limit".toList, [])]).2.2.2
      ⟨("limit".toList, []), by decide, rfl⟩,
   (SetQueryParams_total_iff specExample).1.mpr (by decide)⟩

theorem filterByParamsStep_frame (tableName : Str) (db : gorm.DB) (fp : FilterParam) :
    (filterByParamsStep tableName db fp).table = db.table ∧
      ((∀ c ∈ db.clauses, ∃ query args, c = gorm.Clause.Where query args) →
        ∀ c ∈ (filterByParamsStep tableName db fp).clauses,
          ∃ query args, c = gorm.Clause.Where query args) := by
  have hW : ∀ query args, (db.Where query args).table = db.table ∧
      ((∀ c ∈ db.clauses, ∃ q a, c = gorm.Clause.Where q a) →
        ∀ c ∈ (db.Where query args).clauses, ∃ q a, c = gorm.Clause.Where q a) := by
    intro query args
    refine ⟨rfl, ?_⟩
    intro h c hc
    simp only [gorm.DB.Where, List.mem_append, List.mem_singleton] at hc
    rcases hc with hc | hc
    · exact h c hc
    · exact ⟨query, args, hc⟩
  unfold filterByParamsStep
  simp only
  split_ifs
  all_goals first | exact hW _ _ | exact ⟨rfl, fun h => h⟩

theorem FilterByParams_frame (fps : List FilterParam) (tableName : Str) (db : gorm.DB) :
    (fps.foldl (filterByParamsStep tableName) db).table = db.table ∧
      ((∀ c ∈ db.clauses, ∃ query args, c = gorm.Clause.Where query args) →
        ∀ c ∈ (fps.foldl (filterByParamsStep tableName) db).clauses,
          ∃ query args, c = gorm.Clause.Where query args) := by
  induction fps generalizing db with
  | nil => exact ⟨rfl, fun h => h⟩
  | cons fp rest ih =>
    obtain ⟨h1, h2⟩ := filterByParamsStep_frame tableName db fp
    obtain ⟨i1, i2⟩ := ih (filterByParamsStep tableName db fp)
    rw [List.foldl_cons]
    exact ⟨i1.trans h1, fun h => i2 (h2 h)⟩

/-- C18. For every two `QueryParams` with equal `FilterParams`, whatever their
`Page` and `Sort`, `GetRecordCount` builds one and the same count query: the
table query with the filter predicates and nothing else (no ordering, offset or
limit clause), and so returns the same count. -/
theorem GetRecordCount_filters_only {Model Value : Type} (repo : CommonRepository Model Value)
    (q1 q2 : QueryParams) (h : q1.FilterParams = q2.FilterParams) :
    ∃ countQuery : gorm.DB,
      countQuery = q1.FilterByParams repo.tableName (gorm.Table repo.tableName) ∧
      countQuery = q2.FilterByParams repo.tableName (gorm.Table repo.tableName) ∧
      countQuery.table = repo.tableName ∧
      (∀ c ∈ countQuery.clauses, ∃ query args, c = gorm.Clause.Where query args) ∧
      repo.GetRecordCount (some q1) =
        (if (repo.dbClient.Count countQuery).2 ≠ none then
          (0, (repo.dbClient.Count countQuery).2)
        else ((repo.dbClient.Count countQuery).1, none)) ∧
      repo.GetRecordCount (some q2) = repo.GetRecordCount (some q1) := by
  have hq : q2.FilterByParams repo.tableName (gorm.Table repo.tableName) =
      q1.FilterByParams repo.tableName (gorm.Table repo.tableName) := by
    simp only [QueryParams.FilterByParams, h]
  obtain ⟨ht, hc⟩ := FilterByParams_frame q1.FilterParams repo.tableName
    (gorm.Table repo.tableName)
  refine ⟨_, rfl, hq.symm, ht, hc (fun c hc0 => by cases hc0), rfl, ?_⟩
  simp only [CommonRepository.GetRecordCount, gorm.DB.Scopes, hq]

/-- Two requests with the same filters and different pages and sorts count alike. -/
theorem GetRecordCount_filters_only_witness :
    (stubRepo none okResult).GetRecordCount (some filterExample) = (2, none) ∧
      (stubRepo none okResult).GetRecordCount
        (some { filterExample with
          Page := { Number := 7, Limit := 50 },
          Sorting := { By := "name".toList, Direction := Ascending } }) = (2, none) := by
  obtain ⟨countQuery, -, -, -, -, -, h2⟩ :=
    GetRecordCount_filters_only (stubRepo none okResult) filterExample
      { filterExample with
        Page := { Number := 7, Limit := 50 },
        Sorting := { By := "name".toList, Direction := Ascending } } rfl
  have h1 : (stubRepo none okResult).GetRecordCount (some filterExample) = (2, none) := by
    decide
  exact ⟨h1, by rw [h2, h1]⟩

/-- Page 4611686018427387905 with limit 2 gets the negative offset `-2^63`, and
page `-2^63` with limit 1 gets the positive offset `2^63 - 1`; `SetQueryParams`
builds both pages from a request. -/
theorem Paginate_offset_sign_overflow :
    SetQueryParams [("page".toList, ["4611686018427387905".toList]),
        ("limit".toList, ["2".toList])] =
      some { Page := { Number := 4611686018427387905, Limit := 2 }, Sorting := DefaultSort,
             FilterParams := [] } ∧
    (QueryParams.Paginate
        { Page := { Number := 4611686018427387905, Limit := 2 }, Sorting := DefaultSort,
          FilterParams := [] } (gorm.Table "users".toList)).clauses =
      [gorm.Clause.Offset (-9223372036854775808), gorm.Clause.Limit 2] ∧
    ¬ ((0 : Int) ≤ -9223372036854775808) ∧
    SetQueryParams [("page".toList, ["-9223372036854775808".toList]),
        ("limit".toList, ["1".toList])] =
      some { Page := { Number := -9223372036854775808, Limit := 1 }, Sorting := DefaultSort,
             FilterParams := [] } ∧
    (QueryParams.Paginate
        { Page := { Number := -9223372036854775808, Limit := 1 }, Sorting := DefaultSort,
          FilterParams := [] } (gorm.Table "users".toList)).clauses =
      [gorm.Clause.Offset 9223372036854775807, gorm.Clause.Limit 1] ∧
    ¬ ((9223372036854775807 : Int) < 0) := by
  decide

/-- C19, amended. For every `Page` with `Limit >= 1`: when `Number >= 1` and
`(Number - 1) * Limit` does not exceed the largest `int`, the offset computed by
`Paginate` is non-negative, it is 0 for `Number = 1`, and, when `Number * Limit`
does not exceed the largest `int` either, the next page starts at that offset
plus `Limit`; when `Number <= 0` and `(Number - 1) * Limit` is not below the
smallest `int`, the offset is negative. -/
theorem Paginate_offset_tiling (queryParams : QueryParams) (dbQuery : gorm.DB)
    (hLimit : 1 ≤ queryParams.Page.Limit) :
    (1 ≤ queryParams.Page.Number →
      (queryParams.Page.Number - 1) * queryParams.Page.Limit ≤ maxInt →
      ∃ offset : Int,
        queryParams.Paginate dbQuery = (dbQuery.Offset offset).Limit queryParams.Page.Limit ∧
        0 ≤ offset ∧
        (queryParams.Page.Number = 1 → offset = 0) ∧
        (queryParams.Page.Number * queryParams.Page.Limit ≤ maxInt →
          QueryParams.Paginate
            { queryParams with Page := { queryParams.Page with
                Number := queryParams.Page.Number + 1 } } dbQuery =
            (dbQuery.Offset (offset + queryParams.Page.Limit)).Limit queryParams.Page.Limit)) ∧
    (queryParams.Page.Number ≤ 0 →
      minInt ≤ (queryParams.Page.Number - 1) * queryParams.Page.Limit →
      ∃ offset : Int,
        queryParams.Paginate dbQuery = (dbQuery.Offset offset).Limit queryParams.Page.Limit ∧
        offset < 0) := by
  constructor
  · intro hN hprod
    have h0 : 0 ≤ (queryParams.Page.Number - 1) * queryParams.Page.Limit :=
      mul_nonneg (by omega) (by omega)
    have hexp : queryParams.Page.Number * queryParams.Page.Limit =
        (queryParams.Page.Number - 1) * queryParams.Page.Limit + queryParams.Page.Limit := by
      ring
    have hmin : minInt ≤ 0 := by decide
    refine ⟨(queryParams.Page.Number - 1) * queryParams.Page.Limit, ?_, h0, ?_, ?_⟩
    · rw [Paginate_eq_wrap, wrapInt_of_range _ (by omega) hprod]
    · intro h1
      rw [h1]
      simp
    · intro hnext
      rw [Paginate_eq_wrap]
      simp only [add_sub_cancel_right]
      rw [wrapInt_of_range _ (by omega) hnext, hexp]
  · intro hN hprod
    have hneg : (queryParams.Page.Number - 1) * queryParams.Page.Limit < 0 :=
      mul_neg_of_neg_of_pos (by omega) (by omega)
    have hmax : (0 : Int) ≤ maxInt := by decide
    refine ⟨(queryParams.Page.Number - 1) * queryParams.Page.Limit, ?_, hneg⟩
    rw [Paginate_eq_wrap, wrapInt_of_range _ hprod (by omega)]

/-- Page 3 of 10 starts at a non-negative offset and page 4 starts 10 later. -/
theorem Paginate_offset_tiling_witness :
    ∃ offset : Int,
      QueryParams.Paginate
          { Page := { Number := 3, Limit := 10 }, Sorting := DefaultSort, FilterParams := [] }
          (gorm.Table "users".toList) =
        ((gorm.Table "users".toList).Offset offset).Limit 10 ∧
      0 ≤ offset ∧
      QueryParams.Paginate
          { Page := { Number := 4, Limit := 10 }, Sorting := DefaultSort, FilterParams := [] }
          (gorm.Table "users".toList) =
        ((gorm.Table "users".toList).Offset (offset + 10)).Limit 10 := by
  obtain ⟨offset, h1, h2, -, h4⟩ :=
    (Paginate_offset_tiling
      { Page := { Number := 3, Limit := 10 }, Sorting := DefaultSort, FilterParams := [] }
      (gorm.Table "users".toList) (by decide)).1 (by decide) (by decide)
  exact ⟨offset, h1, h2, h4 (by decide)⟩


end GormRepo
